import Mathlib

/-!
Shallow embedding of the B+-tree index in src/Btree/src/btree.cpp and btree.h.

Pages are modelled as a list of typed page contents (index = page id - 1,
page id 0 is `INVALID_PAGE`).  The buffer manager is modelled by a multiset
of pinned page ids plus an event log (pin / unpin / alloc).  The node-local
array loops of the C++ are mirrored by structural recursions on the loop
counter; leaf and node occupancies are the member fields `leafOccupancy` /
`nodeOccupancy` of the index object, carried in the machine state.
-/

namespace BadgerBTree

/-- `Page::INVALID_NUMBER` (page ids are plain `Nat`). -/
def INVALID_PAGE : Nat := 0

/-- The `Operator` enumeration of btree.h. -/
inductive Operator
  | LT
  | LTE
  | GTE
  | GT
deriving DecidableEq, Repr

/-- `compareOp` from btree.h: whether `x op y`. -/
def compareOp (x y : Int) (op : Operator) : Bool :=
  match op with
  | .LT => x < y
  | .LTE => x ≤ y
  | .GTE => x ≥ y
  | .GT => x > y

/-- The `Datatype` enumeration of btree.h. -/
inductive Datatype
  | INTEGER
  | DOUBLE
  | STRING
deriving DecidableEq, Repr

/-- `RecordId`: page number, slot number, and a padding/tag word
(`{Page::INVALID_NUMBER, Page::INVALID_SLOT, 0}` is the empty-slot value). -/
structure RecordId where
  page_number : Nat
  slot_number : Nat
  tag : Nat
deriving DecidableEq, Repr

/-- The empty/invalid record id used by `clearLeaf`. -/
def invalidRid : RecordId := ⟨0, 0, 0⟩

/-- `LeafNodeInt`: keys, record ids, right sibling page number. -/
structure LeafNode where
  keyArray : List Int
  ridArray : List RecordId
  rightSibPageNo : Nat
deriving DecidableEq, Repr

/-- `NonLeafNodeInt`: level, keys, child page numbers. -/
structure NonLeafNode where
  level : Int
  keyArray : List Int
  pageNoArray : List Nat
deriving DecidableEq, Repr

/-- `IndexMetaInfo`: the header page contents. -/
structure IndexMetaInfo where
  relationName : String
  attrByteOffset : Int
  attrType : Datatype
  rootPageNo : Nat
deriving DecidableEq, Repr

/-- Contents of one page of the index file. -/
inductive PageContent
  | meta (m : IndexMetaInfo)
  | node (n : NonLeafNode)
  | leaf (l : LeafNode)
  | free
deriving DecidableEq, Repr

/-- A freshly allocated (zeroed) leaf page viewed as `LeafNodeInt`. -/
def mkLeaf (leafOcc : Nat) : LeafNode :=
  ⟨List.replicate leafOcc 0, List.replicate leafOcc invalidRid, INVALID_PAGE⟩

/-- A freshly allocated (zeroed) page viewed as `NonLeafNodeInt`. -/
def mkNode (nodeOcc : Nat) : NonLeafNode :=
  ⟨0, List.replicate nodeOcc 0, List.replicate (nodeOcc + 1) INVALID_PAGE⟩

/-- The clearing loop of `clearNode` (ascending indices `st, st+1, ...`,
recursion on the iteration count `ed - st`). -/
def clearLoopNode (n : NonLeafNode) (st : Nat) : Nat → NonLeafNode
  | 0 => n
  | c + 1 =>
    clearLoopNode
      { n with
        keyArray := n.keyArray.set st 0
        pageNoArray := n.pageNoArray.set st INVALID_PAGE } (st + 1) c

/-- `BTreeIndex::clearNode`: reset `level`, clear keys and child page ids in
`[st, ed)` and additionally `pageNoArray[ed]`. -/
def clearNode (n : NonLeafNode) (level : Int) (st ed : Nat) : NonLeafNode :=
  let n1 := clearLoopNode n st (ed - st)
  { n1 with
    level := level
    pageNoArray := n1.pageNoArray.set ed INVALID_PAGE }

/-- The clearing loop of `clearLeaf`. -/
def clearLoopLeaf (l : LeafNode) (st : Nat) : Nat → LeafNode
  | 0 => l
  | c + 1 =>
    clearLoopLeaf
      { l with
        keyArray := l.keyArray.set st 0
        ridArray := l.ridArray.set st invalidRid } (st + 1) c

/-- `BTreeIndex::clearLeaf`: reset the right sibling, clear keys and record
ids in `[st, ed)`. -/
def clearLeaf (l : LeafNode) (rightSibPageNo : Nat) (st ed : Nat) : LeafNode :=
  { clearLoopLeaf l st (ed - st) with rightSibPageNo := rightSibPageNo }

/-- The key-shifting loop `for (i = m-1; i >= pos; --i) key[i+1] = key[i]`,
as a recursion on the iteration count `c = m - pos` (iterations run from the
highest index down, exactly as in the source). -/
def shiftKeys (ks : List Int) (pos : Nat) : Nat → List Int
  | 0 => ks
  | c + 1 => shiftKeys (ks.set (pos + c + 1) (ks.getD (pos + c) 0)) pos c

/-- The rid-shifting loop `rid[i+1] = rid[i]` of `insertRIDKeyPairAux`. -/
def shiftRids (rs : List RecordId) (pos : Nat) : Nat → List RecordId
  | 0 => rs
  | c + 1 => shiftRids (rs.set (pos + c + 1) (rs.getD (pos + c) invalidRid)) pos c

/-- The child-shifting loop `pageNo[i+2] = pageNo[i+1]` of
`insertPageKeyPairAux`. -/
def shiftPages (ps : List Nat) (pos : Nat) : Nat → List Nat
  | 0 => ps
  | c + 1 => shiftPages (ps.set (pos + c + 2) (ps.getD (pos + c + 1) INVALID_PAGE)) pos c

/-- `BTreeIndex::insertPageKeyPairAux`: shift keys `[pos..m)` and children
`[pos+1..m+1)` right by one, then write `key[pos] = pk.key`,
`pageNo[pos+1] = pk.pageNo`. -/
def insertPageKeyPairAux (n : NonLeafNode) (m : Nat) (pk : Nat × Int) (pos : Nat) :
    NonLeafNode :=
  { n with
    keyArray := (shiftKeys n.keyArray pos (m - pos)).set pos pk.2
    pageNoArray := (shiftPages n.pageNoArray pos (m - pos)).set (pos + 1) pk.1 }

/-- `BTreeIndex::insertRIDKeyPairAux`: shift keys and rids `[pos..m)` right
by one, then write the new pair at `pos`. -/
def insertRIDKeyPairAux (l : LeafNode) (m : Nat) (rk : RecordId × Int) (pos : Nat) :
    LeafNode :=
  { l with
    keyArray := (shiftKeys l.keyArray pos (m - pos)).set pos rk.2
    ridArray := (shiftRids l.ridArray pos (m - pos)).set pos rk.1 }

/-- The scan loop of `findPageNumInNode` (index `i`, remaining fuel
`nodeOcc + 1 - i`). -/
def findPageNumInNodeAux (nodeOcc : Nat) (n : NonLeafNode) (val : Int) (op : Operator) :
    Nat → Nat → Nat
  | 0, _ => INVALID_PAGE
  | fuel + 1, i =>
    if n.pageNoArray.getD i INVALID_PAGE ≠ INVALID_PAGE then
      if i + 1 = nodeOcc + 1 ∨ n.pageNoArray.getD (i + 1) INVALID_PAGE = INVALID_PAGE ∨
          compareOp (n.keyArray.getD i 0) val op then
        n.pageNoArray.getD i INVALID_PAGE
      else
        findPageNumInNodeAux nodeOcc n val op fuel (i + 1)
    else
      INVALID_PAGE

/-- `BTreeIndex::findPageNumInNode`. -/
def findPageNumInNode (nodeOcc : Nat) (n : NonLeafNode) (val : Int) (op : Operator) :
    Nat :=
  if n.pageNoArray.getD 1 INVALID_PAGE = INVALID_PAGE then
    n.pageNoArray.getD 0 INVALID_PAGE
  else
    findPageNumInNodeAux nodeOcc n val op (nodeOcc + 1) 0

/-- The `m` / `pos` scan at the start of `insertRIDKeyPair` (running index
`i`, running `pos`, remaining fuel `leafOcc - i`; `pos = cap` means "not yet
set", as in the source where it is initialised to `leafOccupancy`). -/
def leafMPosAux (cap : Nat) (l : LeafNode) (k : Int) : Nat → Nat → Nat → Nat × Nat
  | 0, _, pos => (cap, pos)
  | fuel + 1, i, pos =>
    if (l.ridArray.getD i invalidRid).page_number = INVALID_PAGE then
      (i, if pos = cap then i else pos)
    else if pos = cap ∧ l.keyArray.getD i 0 > k then
      leafMPosAux cap l k fuel (i + 1) i
    else
      leafMPosAux cap l k fuel (i + 1) pos

/-- Number of used slots `m` and insertion position `pos` for a leaf. -/
def leafFindMPos (cap : Nat) (l : LeafNode) (k : Int) : Nat × Nat :=
  leafMPosAux cap l k cap 0 cap

/-- The `m` / `pos` scan at line 533 of `insertEntryAux` (valid slot test is
`pageNoArray[i+1] != INVALID_PAGE`). -/
def nodeMPosAux (cap : Nat) (n : NonLeafNode) (k : Int) : Nat → Nat → Nat → Nat × Nat
  | 0, _, pos => (cap, pos)
  | fuel + 1, i, pos =>
    if n.pageNoArray.getD (i + 1) INVALID_PAGE = INVALID_PAGE then
      (i, if pos = cap then i else pos)
    else if pos = cap ∧ n.keyArray.getD i 0 > k then
      nodeMPosAux cap n k fuel (i + 1) i
    else
      nodeMPosAux cap n k fuel (i + 1) pos

/-- Number of keys `m` and insertion position `pos` for a non-leaf node. -/
def nodeFindMPos (cap : Nat) (n : NonLeafNode) (k : Int) : Nat × Nat :=
  nodeMPosAux cap n k cap 0 cap

/-- The copy loop of the leaf split (lines 650-656): copy entries
`[mid, m)` of the old leaf into the split leaf starting at `splitIndex`. -/
def copyRightLeaf (src : LeafNode) (dst : LeafNode) (mid sIdx : Nat) : Nat → LeafNode
  | 0 => dst
  | c + 1 =>
    copyRightLeaf src
      { dst with
        keyArray := dst.keyArray.set sIdx (src.keyArray.getD mid 0)
        ridArray := dst.ridArray.set sIdx (src.ridArray.getD mid invalidRid) }
      (mid + 1) (sIdx + 1) c

/-- The copy loop of the non-leaf split (lines 568-575): copy keys
`[mid, m)` and children `[mid+1, m+1)` of the old node into the split node. -/
def copyRightNode (src : NonLeafNode) (dst : NonLeafNode) (mid cnt : Nat) : Nat → NonLeafNode
  | 0 => dst
  | c + 1 =>
    copyRightNode src
      { dst with
        keyArray := dst.keyArray.set cnt (src.keyArray.getD mid 0)
        pageNoArray := dst.pageNoArray.set (cnt + 1) (src.pageNoArray.getD (mid + 1) INVALID_PAGE) }
      (mid + 1) (cnt + 1) c

/-- The split half of `BTreeIndex::insertRIDKeyPair` (lines 632-683), as a
pure function of the full leaf, the new pair, `m`, `pos` and the page id the
buffer manager allocated for the split leaf.  Returns the updated original
leaf, the split leaf, and the copied-up `(pageNo, key)` pair. -/
def leafSplitCore (leafOcc : Nat) (l : LeafNode) (rk : RecordId × Int) (m pos : Nat)
    (splitPid : Nat) : LeafNode × LeafNode × (Nat × Int) :=
  let mid := (m + 1) / 2
  let sp0 := clearLeaf (mkLeaf leafOcc) l.rightSibPageNo 0 m
  let sIdx : Nat := if pos ≤ mid then 1 else 0
  let sp1 := copyRightLeaf l sp0 mid sIdx (m - mid)
  if pos ≤ mid then
    let l1 := insertRIDKeyPairAux l mid rk pos
    let sp2 :=
      { sp1 with
        keyArray := sp1.keyArray.set 0 (l1.keyArray.getD mid 0)
        ridArray := sp1.ridArray.set 0 (l1.ridArray.getD mid invalidRid) }
    (clearLeaf l1 splitPid mid m, sp2, (splitPid, sp2.keyArray.getD 0 0))
  else
    let sp2 := insertRIDKeyPairAux sp1 (m - mid) rk (pos - mid)
    (clearLeaf l splitPid mid m, sp2, (splitPid, sp2.keyArray.getD 0 0))

/-- The split half of `BTreeIndex::insertEntryAux` (lines 556-595), as a
pure function.  Returns the updated original node, the split node, and the
pushed-up `(pageNo, key)` pair. -/
def nodeSplitCore (nodeOcc : Nat) (n : NonLeafNode) (pkIn : Nat × Int) (m pos : Nat)
    (splitPid : Nat) : NonLeafNode × NonLeafNode × (Nat × Int) :=
  let mid := (m + 1) / 2
  let sp0 := clearNode (mkNode nodeOcc) n.level 0 m
  let sp1 := { sp0 with pageNoArray := sp0.pageNoArray.set 0 (n.pageNoArray.getD mid INVALID_PAGE) }
  let sp2 := copyRightNode n sp1 mid 0 (m - mid)
  if pos ≤ mid then
    let n1 := insertPageKeyPairAux n (mid + 1) pkIn pos
    (clearNode n1 n1.level mid m, sp2, (splitPid, n1.keyArray.getD mid 0))
  else
    let sp3 := insertPageKeyPairAux sp2 (m - mid - 1) pkIn (pos - mid)
    (clearNode n n.level mid m, sp3, (splitPid, n.keyArray.getD mid 0))

/-- Buffer-manager events, in chronological order. -/
inductive Ev
  | pin (p : Nat)
  | unpin (p : Nat) (dirty : Bool)
  | alloc (p : Nat)
deriving DecidableEq, Repr

/-- The state of one `BTreeIndex` object together with its file and buffer
manager: `pages` is the index file (page id `i+1` at list position `i`),
`pinned` the multiset of page ids currently pinned by this index, `events`
the chronological log of buffer-manager calls.  The remaining fields are the
data members of `BTreeIndex`. -/
structure Machine where
  pages : List PageContent
  headerPageNum : Nat
  rootPageNum : Nat
  leafOccupancy : Nat
  nodeOccupancy : Nat
  scanExecuting : Bool
  nextEntry : Int
  currentPageNum : Nat
  lowValInt : Int
  highValInt : Int
  lowOp : Operator
  highOp : Operator
  pinned : List Nat
  events : List Ev
deriving DecidableEq, Repr

/-- Contents of page `p` (page id 0 is invalid and holds nothing). -/
def getPage (mc : Machine) (p : Nat) : PageContent :=
  if p = 0 then .free else mc.pages.getD (p - 1) .free

/-- View page `p` as a non-leaf node (the C++ pointer cast). -/
def getNode (mc : Machine) (p : Nat) : NonLeafNode :=
  match getPage mc p with
  | .node n => n
  | _ => mkNode mc.nodeOccupancy

/-- View page `p` as a leaf node (the C++ pointer cast). -/
def getLeaf (mc : Machine) (p : Nat) : LeafNode :=
  match getPage mc p with
  | .leaf l => l
  | _ => mkLeaf mc.leafOccupancy

/-- View page `p` as the index meta page (the C++ pointer cast). -/
def getMeta (mc : Machine) (p : Nat) : IndexMetaInfo :=
  match getPage mc p with
  | .meta m => m
  | _ => ⟨"", 0, .INTEGER, INVALID_PAGE⟩

/-- `BufMgr::readPage`: pin page `p`. -/
def Machine.readPage (mc : Machine) (p : Nat) : Machine :=
  { mc with pinned := p :: mc.pinned, events := mc.events ++ [Ev.pin p] }

/-- `BufMgr::unPinPage`: release one pin on page `p`. -/
def Machine.unPinPage (mc : Machine) (p : Nat) (dirty : Bool) : Machine :=
  { mc with pinned := mc.pinned.erase p, events := mc.events ++ [Ev.unpin p dirty] }

/-- `BufMgr::allocPage`: extend the file by one page and pin it. -/
def Machine.allocPage (mc : Machine) : Machine × Nat :=
  let pid := mc.pages.length + 1
  ({ mc with
      pages := mc.pages ++ [PageContent.free]
      pinned := pid :: mc.pinned
      events := mc.events ++ [Ev.alloc pid] }, pid)

/-- Store new contents for page `p` (a mutation through a pinned pointer). -/
def Machine.writePage (mc : Machine) (p : Nat) (c : PageContent) : Machine :=
  { mc with pages := mc.pages.set (p - 1) c }

/-- `BTreeIndex::insertRIDKeyPair` (lines 604-684): insert `rk` into the
leaf on page `leafPid`, splitting it if full.  Returns the machine, the
"no split happened" flag, and the copied-up pair (meaningful only on a
split, like the uninitialised C++ out-parameter). -/
def insertRIDKeyPairM (mc : Machine) (leafPid : Nat) (rk : RecordId × Int) :
    Machine × Bool × (Nat × Int) :=
  let l := getLeaf mc leafPid
  let mp := leafFindMPos mc.leafOccupancy l rk.2
  if mp.1 ≠ mc.leafOccupancy then
    (mc.writePage leafPid (.leaf (insertRIDKeyPairAux l mp.1 rk mp.2)), true, (0, 0))
  else
    let a := mc.allocPage
    let r := leafSplitCore mc.leafOccupancy l rk mp.1 mp.2 a.2
    let mc2 := (a.1.writePage leafPid (.leaf r.1)).writePage a.2 (.leaf r.2.1)
    (mc2.unPinPage a.2 true, false, r.2.2)

/-- Lines 524-597 of `insertEntryAux`: after the child on page `nxt` has
been handled with outcome `(ok, pushed)`, unpin it dirty and, if it split,
install the pushed-up pair into the node on page `pid` (splitting that node
in turn when full). -/
def insertEntryAuxAfter (mc2 : Machine) (pid nxt : Nat) (ok : Bool)
    (pushed : Nat × Int) : Machine × Bool × (Nat × Int) :=
  let mc3 := mc2.unPinPage nxt true
  if ok then
    (mc3, true, (0, 0))
  else
    let n' := getNode mc3 pid
    let mp := nodeFindMPos mc3.nodeOccupancy n' pushed.2
    if mp.1 ≠ mc3.nodeOccupancy then
      (mc3.writePage pid (.node (insertPageKeyPairAux n' mp.1 pushed mp.2)), true, (0, 0))
    else
      let a := mc3.allocPage
      let r := nodeSplitCore mc3.nodeOccupancy n' pushed mp.1 mp.2 a.2
      let mc4 := (a.1.writePage pid (.node r.1)).writePage a.2 (.node r.2.1)
      (mc4.unPinPage a.2 true, false, r.2.2)

/-- `BTreeIndex::insertEntryAux` (lines 497-598): recursive insert starting
from the non-leaf node on page `pid`.  `none` on fuel exhaustion. -/
def insertEntryAuxM : Nat → Machine → Nat → (RecordId × Int) →
    Option (Machine × Bool × (Nat × Int))
  | 0, _, _, _ => none
  | fuel + 1, mc, pid, rk =>
    let n := getNode mc pid
    let nxt := findPageNumInNode mc.nodeOccupancy n rk.2 .GT
    let mc1 := mc.readPage nxt
    (if n.level = 1 then
        some (insertRIDKeyPairM mc1 nxt rk)
      else
        insertEntryAuxM fuel mc1 nxt rk).map
      (fun r => insertEntryAuxAfter r.1 pid nxt r.2.1 r.2.2)

/-- `BTreeIndex::insertEntry` (lines 161-190): pin the root, insert
recursively, and on a root split allocate a new root holding the pushed-up
pair, updating the in-memory `rootPageNum`. -/
def insertEntryM (fuel : Nat) (mc : Machine) (key : Int) (rid : RecordId) :
    Option Machine :=
  let mc1 := mc.readPage mc.rootPageNum
  match insertEntryAuxM fuel mc1 mc.rootPageNum (rid, key) with
  | none => none
  | some (mc2, ok, pushed) =>
    if ok then
      some (mc2.unPinPage mc2.rootPageNum true)
    else
      let oldRoot := mc2.rootPageNum
      let mc3 := mc2.unPinPage oldRoot true
      let a := mc3.allocPage
      let n0 := clearNode (mkNode a.1.nodeOccupancy) 0 0 a.1.nodeOccupancy
      let n1 := { n0 with pageNoArray := n0.pageNoArray.set 0 oldRoot }
      let n2 := insertPageKeyPairAux n1 0 pushed 0
      let mc4 := { a.1.writePage a.2 (.node n2) with rootPageNum := a.2 }
      some (mc4.unPinPage a.2 true)

/-- The loop of `BTreeIndex::findLeafPageNum` (lines 398-429): the current
page is pinned at entry; each iteration chooses the child, unpins the
current page and either returns or pins the child. -/
def findLeafLoop : Nat → Machine → Nat → Int → Operator →
    Option (Machine × Nat)
  | 0, _, _, _, _ => none
  | fuel + 1, mc, curPid, val, op =>
    let n := getNode mc curPid
    let curLevel := n.level
    let nxt := findPageNumInNode mc.nodeOccupancy n val op
    let mc1 := mc.unPinPage curPid false
    if curLevel = 1 ∨ nxt = INVALID_PAGE then
      some (mc1, nxt)
    else
      findLeafLoop fuel (mc1.readPage nxt) nxt val op

/-- `BTreeIndex::findLeafPageNum`. -/
def findLeafPageNumM (fuel : Nat) (mc : Machine) (val : Int) (op : Operator) :
    Option (Machine × Nat) :=
  findLeafLoop fuel (mc.readPage mc.rootPageNum) mc.rootPageNum val op

/-- The common exit of `updateScanEntry` (lines 484-490): unpin the current
page and reset the scan position. -/
def scanExitNotFound (mc : Machine) : Machine :=
  let mc1 := mc.unPinPage mc.currentPageNum false
  { mc1 with currentPageNum := INVALID_PAGE, nextEntry := -1 }

/-- The sibling-crossing step of `updateScanEntry` (lines 453-460): unpin
the current page, move to the right sibling, pin it, restart at entry 0. -/
def scanCross (mc : Machine) (sib : Nat) : Machine :=
  let mc1 := mc.unPinPage mc.currentPageNum false
  { ({ mc1 with currentPageNum := sib }).readPage sib with nextEntry := 0 }

/-- One iteration of the `updateScanEntry` loop (lines 439-482): advance
`nextEntry`, cross to the right sibling if at the end of the leaf (failing
if there is none), then check the bounds.  `.inl` means "continue" (the
key was below the lower bound), `.inr` is the loop's result. -/
def updateScanIter (mc0 : Machine) : Machine ⊕ (Machine × Bool) :=
  let mcA := { mc0 with nextEntry := mc0.nextEntry + 1 }
  let lfA := getLeaf mcA mcA.currentPageNum
  let atEnd := mcA.nextEntry ≥ (mcA.leafOccupancy : Int) ∨
    (lfA.ridArray.getD mcA.nextEntry.toNat invalidRid).page_number = INVALID_PAGE
  if atEnd ∧ lfA.rightSibPageNo = INVALID_PAGE then
    .inr (scanExitNotFound mcA, false)
  else
    let mc1 := if atEnd then scanCross mcA lfA.rightSibPageNo else mcA
    let k := (getLeaf mc1 mc1.currentPageNum).keyArray.getD mc1.nextEntry.toNat 0
    if ¬ compareOp k mc1.lowValInt mc1.lowOp then
      .inl mc1
    else if ¬ compareOp k mc1.highValInt mc1.highOp then
      .inr (scanExitNotFound mc1, false)
    else
      .inr (mc1, true)

/-- `BTreeIndex::updateScanEntry` (lines 435-491): iterate `updateScanIter`
until it reports a result.  `none` on fuel exhaustion; otherwise the
machine and the "found" flag. -/
def updateScanEntryM : Nat → Machine → Option (Machine × Bool)
  | 0, _ => none
  | fuel + 1, mc0 =>
    match updateScanIter mc0 with
    | .inr r => some r
    | .inl mc1 => updateScanEntryM fuel mc1

/-- The exceptions thrown by the index methods. -/
inductive BErr
  | BadIndexInfo
  | BadOpcodes
  | BadScanrange
  | NoSuchKeyFound
  | ScanNotInitialized
  | IndexScanCompleted
deriving DecidableEq, Repr

/-- `BTreeIndex::endScan` (lines 279-298).  Returns the machine at the
point of return or throw, and the thrown exception if any. -/
def endScanM (mc : Machine) : Machine × Option BErr :=
  if mc.scanExecuting = false then
    (mc, some .ScanNotInitialized)
  else
    let mc1 :=
      if mc.currentPageNum ≠ INVALID_PAGE then
        mc.unPinPage mc.currentPageNum false
      else
        mc
    ({ mc1 with
        scanExecuting := false
        nextEntry := -1
        currentPageNum := INVALID_PAGE }, none)

/-- Lines 239-247 of `startScan`: find the first in-range entry starting
from the freshly pinned leaf, and fail `NoSuchKeyFound` if there is none. -/
def startScanTail (fuel : Nat) (mc6 : Machine) : Option (Machine × Option BErr) :=
  match updateScanEntryM fuel mc6 with
  | none => none
  | some (mc7, found) =>
    if found then some (mc7, none) else some (mc7, some .NoSuchKeyFound)

/-- Lines 228-247 of `startScan`: descend to the starting leaf, pin it and
advance to the first in-range entry. -/
def startScanFind (fuel : Nat) (mc2 : Machine) (lo : Int) (lop : Operator) :
    Option (Machine × Option BErr) :=
  match findLeafPageNumM fuel mc2 lo lop with
  | none => none
  | some (mc3, leafPid) =>
    let mc4 := { mc3 with currentPageNum := leafPid }
    if leafPid ≠ INVALID_PAGE then
      startScanTail fuel { mc4.readPage leafPid with nextEntry := -1 }
    else
      some (mc4, some .NoSuchKeyFound)

/-- `BTreeIndex::startScan` (lines 196-248).  `none` on fuel exhaustion;
otherwise the machine at the point of return or throw and the thrown
exception if any. -/
def startScanM (fuel : Nat) (mc : Machine) (lo : Int) (lop : Operator) (hi : Int)
    (hop : Operator) : Option (Machine × Option BErr) :=
  if (lop ≠ .GT ∧ lop ≠ .GTE) ∨ (hop ≠ .LT ∧ hop ≠ .LTE) then
    some (mc, some .BadOpcodes)
  else if lo > hi then
    some (mc, some .BadScanrange)
  else
    let mc1 := if mc.scanExecuting then (endScanM mc).1 else mc
    let mc2 :=
      { mc1 with
          scanExecuting := true
          lowValInt := lo
          lowOp := lop
          highValInt := hi
          highOp := hop }
    startScanFind fuel mc2 lo lop

/-- `BTreeIndex::scanNext` (lines 254-273).  `none` on fuel exhaustion;
otherwise the machine and either the yielded record id or the thrown
exception. -/
def scanNextM (fuel : Nat) (mc : Machine) : Option (Machine × Except BErr RecordId) :=
  if mc.scanExecuting = false then
    some (mc, .error .ScanNotInitialized)
  else if mc.nextEntry = -1 then
    some (mc, .error .IndexScanCompleted)
  else
    let rid := (getLeaf mc mc.currentPageNum).ridArray.getD mc.nextEntry.toNat invalidRid
    match updateScanEntryM fuel mc with
    | none => none
    | some (mc1, _) => some (mc1, .ok rid)

/-- Fold `insertEntry` over a list of `(rid, key)` pairs (the bulk-build
loop of the constructor). -/
def insertAll (fuel : Nat) : List (RecordId × Int) → Machine → Option Machine
  | [], mc => some mc
  | (r, k) :: rest, mc =>
    match insertEntryM fuel mc k r with
    | none => none
    | some mc1 => insertAll fuel rest mc1

/-- The machine of a brand-new `BTreeIndex` object before any page is
allocated. -/
def initMachine (leafOcc nodeOcc : Nat) : Machine :=
  { pages := []
    headerPageNum := INVALID_PAGE
    rootPageNum := INVALID_PAGE
    leafOccupancy := leafOcc
    nodeOccupancy := nodeOcc
    scanExecuting := false
    nextEntry := -1
    currentPageNum := INVALID_PAGE
    lowValInt := 0
    highValInt := 0
    lowOp := .GT
    highOp := .LT
    pinned := []
    events := [] }

/-- The new-file branch of the `BTreeIndex` constructor (lines 56-108):
allocate header, root and first leaf, write the meta information (the index
name truncated to 20 characters), link the empty leaf under the level-1
root, unpin all three dirty, then insert every record of the relation. -/
def createIndex (fuel : Nat) (leafOcc nodeOcc : Nat) (indexName : String)
    (attrByteOffset : Int) (attrType : Datatype) (records : List (RecordId × Int)) :
    Option Machine :=
  let a1 := (initMachine leafOcc nodeOcc).allocPage
  let a2 := a1.1.allocPage
  let headerPid := a1.2
  let rootPid := a2.2
  let meta : IndexMetaInfo :=
    { relationName := indexName.take 20
      attrByteOffset := attrByteOffset
      attrType := attrType
      rootPageNo := rootPid }
  let rootN := clearNode (mkNode nodeOcc) 1 0 nodeOcc
  let a3 := a2.1.allocPage
  let leafPid := a3.2
  let lf := clearLeaf (mkLeaf leafOcc) INVALID_PAGE 0 leafOcc
  let rootN1 := { rootN with pageNoArray := rootN.pageNoArray.set 0 leafPid }
  let mc1 := ((a3.1.writePage headerPid (.meta meta)).writePage rootPid
      (.node rootN1)).writePage leafPid (.leaf lf)
  let mc2 := { mc1 with headerPageNum := headerPid, rootPageNum := rootPid }
  let mc3 := ((mc2.unPinPage headerPid true).unPinPage rootPid true).unPinPage leafPid true
  insertAll fuel records mc3

/-- The existing-file branch of the `BTreeIndex` constructor
(lines 109-135): pin the header page, compare the stored meta information
against the constructor arguments, throw `BadIndexInfoException` on a
mismatch, otherwise adopt the stored root page number. -/
def openIndex (leafOcc nodeOcc : Nat) (pages : List PageContent) (indexName : String)
    (attrByteOffset : Int) (attrType : Datatype) : Machine × Option BErr :=
  let mc0 := { initMachine leafOcc nodeOcc with pages := pages }
  let headerPid : Nat := 1
  let mc1 := mc0.readPage headerPid
  let meta := getMeta mc1 headerPid
  if attrType ≠ meta.attrType ∨ attrByteOffset ≠ meta.attrByteOffset ∨
      indexName ≠ meta.relationName then
    (mc1.unPinPage headerPid false, some .BadIndexInfo)
  else
    ({ mc1.unPinPage headerPid false with
        headerPageNum := headerPid
        rootPageNum := meta.rootPageNo }, none)

/-- The full `BTreeIndex` constructor over a small file system (a list of
named index files): derive `indexName = relationName + "." + attrByteOffset`
and take the create or open branch depending on `File::exists(indexName)`.
`records` is the relation scanned by the bulk build. -/
def bTreeCtor (fuel : Nat) (leafOcc nodeOcc : Nat) (fs : List (String × List PageContent))
    (relationName : String) (attrByteOffset : Int) (attrType : Datatype)
    (records : List (RecordId × Int)) : Option (String × Except BErr Machine) :=
  let indexName := relationName ++ "." ++ toString attrByteOffset
  match fs.lookup indexName with
  | none =>
    (createIndex fuel leafOcc nodeOcc indexName attrByteOffset attrType records).map
      (fun mc => (indexName, .ok mc))
  | some pages =>
    let r := openIndex leafOcc nodeOcc pages indexName attrByteOffset attrType
    some (indexName,
      match r.2 with
      | some e => .error e
      | none => .ok r.1)

/-- `BTreeIndex::~BTreeIndex` (lines 142-155): end any active scan and
flush the file (flushing does not change the page contents). -/
def closeIndex (mc : Machine) : Machine :=
  if mc.scanExecuting then (endScanM mc).1 else mc

/-- Record ids of the insertion history whose keys satisfy both scan
bounds. -/
def qualifyingRids (history : List (RecordId × Int)) (lo : Int) (lop : Operator)
    (hi : Int) (hop : Operator) : List RecordId :=
  (history.filter (fun p => compareOp p.2 lo lop && compareOp p.2 hi hop)).map
    (fun p => p.1)

/-- Drive `scanNext` until `IndexScanCompletedException`, collecting the
yielded record ids in order. -/
def collectLoop (sf : Nat) : Nat → Machine → Option (List RecordId)
  | 0, _ => none
  | n + 1, mc =>
    match scanNextM sf mc with
    | none => none
    | some (mc1, .ok r) => (collectLoop sf n mc1).map (fun l => r :: l)
    | some (_, .error .IndexScanCompleted) => some []
    | some (_, .error _) => none

/-- Run `startScan` followed by repeated `scanNext` until exhaustion and
return the record ids yielded (a scan rejected with `NoSuchKeyFound` yields
none). -/
def runScanCollect (sf n : Nat) (mc : Machine) (lo : Int) (lop : Operator) (hi : Int)
    (hop : Operator) : Option (List RecordId) :=
  match startScanM sf mc lo lop hi hop with
  | some (mc1, none) => collectLoop sf n mc1
  | some (_, some .NoSuchKeyFound) => some []
  | _ => none

/-- Machine after `startScan` (identity on fuel exhaustion). -/
def runStartScanState (sf : Nat) (mc : Machine) (lo : Int) (lop : Operator) (hi : Int)
    (hop : Operator) : Machine :=
  match startScanM sf mc lo lop hi hop with
  | some (mc1, _) => mc1
  | none => mc

/-- Machine after `scanNext` (identity on fuel exhaustion). -/
def runScanNextState (sf : Nat) (mc : Machine) : Machine :=
  match scanNextM sf mc with
  | some (mc1, _) => mc1
  | none => mc

/-- Machine after `insertEntry` (identity on fuel exhaustion). -/
def runInsert (fuel : Nat) (mc : Machine) (key : Int) (rid : RecordId) : Machine :=
  (insertEntryM fuel mc key rid).getD mc

/-! ### Concrete inputs used by individual claims -/

/-- An insertion history (keys 10..70 ascending, then 35) that drives the
index with `leafOccupancy = 2`, `nodeOccupancy = 4` through a root split
and then through an insert that descends into the wrong leaf. -/
def hist8 : List (RecordId × Int) :=
  [(⟨10, 1, 0⟩, 10), (⟨20, 1, 0⟩, 20), (⟨30, 1, 0⟩, 30), (⟨40, 1, 0⟩, 40),
   (⟨50, 1, 0⟩, 50), (⟨60, 1, 0⟩, 60), (⟨70, 1, 0⟩, 70), (⟨35, 1, 0⟩, 35)]

/-- The first seven inserts of `hist8` (enough to split the root). -/
def hist7 : List (RecordId × Int) := hist8.take 7

/-- Build a fresh index with `leafOccupancy = 2`, `nodeOccupancy = 4` from
the given records. -/
def build2x4 (recs : List (RecordId × Int)) : Machine :=
  (createIndex 30 2 4 "rel.0" 0 .INTEGER recs).getD (initMachine 2 4)

/-- A full internal node (occupancy 4): keys 10,20,30,40 over children
100..104. -/
def fullNode4 : NonLeafNode := ⟨1, [10, 20, 30, 40], [100, 101, 102, 103, 104]⟩

/-- A two-level index whose root (page 2) has separator key 5 over leaf 3
(holding key 5) and the empty leaf 4. -/
def m6 : Machine :=
  { initMachine 2 4 with
    pages := [.meta ⟨"rel.0", 0, .INTEGER, 2⟩,
              .node ⟨1, [5, 0, 0, 0], [3, 4, 0, 0, 0]⟩,
              .leaf ⟨[5, 0], [⟨5, 1, 0⟩, invalidRid], 4⟩,
              .leaf ⟨[0, 0], [invalidRid, invalidRid], 0⟩]
    headerPageNum := 1
    rootPageNum := 2 }

/-- An index holding the single key 10. -/
def tinyM : Machine := build2x4 [(⟨10, 1, 0⟩, 10)]

/-- An index holding no keys at all. -/
def emptyM : Machine := build2x4 []

deriving instance DecidableEq for Except

/-- The error outcome of the full constructor (`none` = construction
succeeded). -/
def ctorOutcome (fuel leafOcc nodeOcc : Nat) (fs : List (String × List PageContent))
    (relationName : String) (attrByteOffset : Int) (attrType : Datatype)
    (records : List (RecordId × Int)) : Option (String × Option BErr) :=
  (bTreeCtor fuel leafOcc nodeOcc fs relationName attrByteOffset attrType records).map
    (fun p => (p.1,
      match p.2 with
      | .ok _ => none
      | .error e => some e))

/-- A file system holding the index file previously built for
`("rel", 0, INTEGER)`. -/
def fs0 : List (String × List PageContent) := [("rel.0", emptyM.pages)]

/-- The shapes of buffer-manager event suffixes emitted by the
`updateScanEntry` loop when its current leaf is `c`: nothing (found on the
current leaf), a single clean unpin of `c` (exhaustion exit), or a clean
unpin of `c` followed by a pin of the right sibling `b` and then a suffix
for `b`.  In particular every pin is immediately preceded by the unpin of
the previous leaf. -/
inductive ScanPinEvs : Nat → List Ev → Prop
  | nil (c : Nat) : ScanPinEvs c []
  | exitUnpin (c : Nat) : ScanPinEvs c [Ev.unpin c false]
  | cross (c b : Nat) (rest : List Ev) : ScanPinEvs b rest →
      ScanPinEvs c (Ev.unpin c false :: Ev.pin b :: rest)

/-- A machine positioned for the scan-advance loop on the single-key index
`tinyM`: the leaf (page 3) is pinned and current, `nextEntry = -1`, and the
bounds are `(5, GTE, 15, LTE)`. -/
def tinyScanMid : Machine :=
  { tinyM.readPage 3 with
      currentPageNum := 3
      nextEntry := -1
      scanExecuting := true
      lowValInt := 5
      lowOp := .GTE
      highValInt := 15
      highOp := .LTE }

/-- The machine after one `updateScanEntry` run from `tinyScanMid`. -/
def tinyAdvanced : Machine :=
  ((updateScanEntryM 50 tinyScanMid).getD (tinyScanMid, false)).1

/-- The result of a concrete leaf lookup on `tinyM`. -/
def tinyFound : Machine × Nat := (findLeafPageNumM 50 tinyM 10 Operator.GTE).getD (tinyM, 0)

/-- The machine after a concrete `insertEntry` on `tinyM`. -/
def tinyInserted : Machine := (insertEntryM 50 tinyM 11 ⟨11, 1, 0⟩).getD tinyM

/-- The machine left behind by the `NoSuchKeyFound`-throwing `startScan`
`(5, GTE, 7, LTE)` on the empty index `emptyM`. -/
def emptyScanned : Machine :=
  ((startScanM 50 emptyM 5 .GTE 7 .LTE).getD (emptyM, none)).1

/-! ### Supporting lemmas -/

theorem getD_set_ne {α : Type} : ∀ (l : List α) (i j : Nat) (a d : α), i ≠ j →
    (l.set i a).getD j d = l.getD j d
  | [], _, _, _, _, _ => rfl
  | _ :: _, 0, 0, _, _, h => absurd rfl h
  | _ :: _, 0, _ + 1, _, _, _ => rfl
  | _ :: _, _ + 1, 0, _, _, _ => rfl
  | _ :: tl, i + 1, j + 1, a, d, h =>
    getD_set_ne tl i j a d (fun hij => h (by omega))

theorem getD_set_self {α : Type} : ∀ (l : List α) (i : Nat) (a d : α), i < l.length →
    (l.set i a).getD i d = a
  | [], i, _, _, h => absurd h (by simp)
  | _ :: _, 0, _, _, _ => rfl
  | _ :: tl, i + 1, a, d, h => getD_set_self tl i a d (by simpa using h)

theorem shiftKeys_length (pos : Nat) : ∀ (c : Nat) (ks : List Int),
    (shiftKeys ks pos c).length = ks.length
  | 0, _ => rfl
  | c + 1, ks => by
    rw [shiftKeys, shiftKeys_length pos c, List.length_set]

/-- After the shifting loop, slots `[pos+1, pos+c]` hold the old values of
slots `[pos, pos+c-1]` and every other slot is unchanged. -/
theorem shiftKeys_getD (pos : Nat) : ∀ (c : Nat) (ks : List Int) (j : Nat),
    pos + c < ks.length →
    (shiftKeys ks pos c).getD j 0 =
      if pos + 1 ≤ j ∧ j ≤ pos + c then ks.getD (j - 1) 0 else ks.getD j 0
  | 0, ks, j, _ => by
    rw [shiftKeys, if_neg (by omega)]
  | c + 1, ks, j, hlen => by
    rw [shiftKeys, shiftKeys_getD pos c _ j (by rw [List.length_set]; omega)]
    by_cases h1 : pos + 1 ≤ j ∧ j ≤ pos + c
    · rw [if_pos h1, if_pos (by omega), getD_set_ne _ _ _ _ _ (by omega)]
    · by_cases h2 : j = pos + c + 1
      · rw [if_neg h1, if_pos (by omega), h2,
          getD_set_self _ _ _ _ (by omega)]
        congr 1
      · rw [if_neg h1, if_neg (by omega), getD_set_ne _ _ _ _ _ (by omega)]

theorem clearLoopLeaf_keys_length (st : Nat) : ∀ (c : Nat) (l : LeafNode),
    (clearLoopLeaf l st c).keyArray.length = l.keyArray.length
  | 0, _ => rfl
  | c + 1, l => by
    rw [clearLoopLeaf, clearLoopLeaf_keys_length (st + 1) c]
    exact List.length_set ..

theorem clearLeaf_keys_length (l : LeafNode) (sib : Nat) (st ed : Nat) :
    (clearLeaf l sib st ed).keyArray.length = l.keyArray.length :=
  clearLoopLeaf_keys_length st (ed - st) l

theorem copyRightLeaf_keys_length (src : LeafNode) : ∀ (c : Nat) (dst : LeafNode)
    (mid sIdx : Nat),
    (copyRightLeaf src dst mid sIdx c).keyArray.length = dst.keyArray.length
  | 0, _, _, _ => rfl
  | c + 1, dst, mid, sIdx => by
    rw [copyRightLeaf, copyRightLeaf_keys_length src c]
    exact List.length_set ..

/-- After the leaf-split copy loop, destination slots `[sIdx, sIdx+c)` hold
the source values `[mid, mid+c)` and every other slot is unchanged. -/
theorem copyRightLeaf_keys_getD (src : LeafNode) : ∀ (c : Nat) (dst : LeafNode)
    (mid sIdx j : Nat), sIdx + c ≤ dst.keyArray.length →
    (copyRightLeaf src dst mid sIdx c).keyArray.getD j 0 =
      if sIdx ≤ j ∧ j < sIdx + c then src.keyArray.getD (mid + (j - sIdx)) 0
      else dst.keyArray.getD j 0
  | 0, dst, mid, sIdx, j, _ => by
    rw [copyRightLeaf, if_neg (by omega)]
  | c + 1, dst, mid, sIdx, j, hlen => by
    rw [copyRightLeaf, copyRightLeaf_keys_getD src c _ _ _ j
      (by rw [List.length_set]; omega)]
    by_cases h1 : sIdx + 1 ≤ j ∧ j < sIdx + 1 + c
    · rw [if_pos h1, if_pos (by omega)]
      congr 1
      omega
    · by_cases h2 : j = sIdx
      · rw [if_neg h1, if_pos (by omega), h2, getD_set_self _ _ _ _ (by omega)]
        congr 1
        omega
      · rw [if_neg h1, if_neg (by omega), getD_set_ne _ _ _ _ _ (by omega)]

/-- Characterisation of the `m`/`pos` scan of `insertRIDKeyPair` when it
reports a full leaf: `pos` is the first index whose key exceeds the new
key, or the capacity if there is none. -/
theorem leafMPosAux_char (cap : Nat) (l : LeafNode) (k : Int) :
    ∀ (fuel i pos0 : Nat), i + fuel = cap →
    ((pos0 = cap ∧ ∀ t, t < i → l.keyArray.getD t 0 ≤ k) ∨
      (pos0 < i ∧ (∀ t, t < pos0 → l.keyArray.getD t 0 ≤ k) ∧ k < l.keyArray.getD pos0 0)) →
    ∀ (m pos : Nat), leafMPosAux cap l k fuel i pos0 = (m, pos) → m = cap →
    pos ≤ cap ∧ (∀ t, t < pos → l.keyArray.getD t 0 ≤ k) ∧
      (pos < cap → k < l.keyArray.getD pos 0)
  | 0, i, pos0, hfi, hinv, m, pos, hrun, hm => by
    rw [leafMPosAux] at hrun
    cases hrun
    rcases hinv with ⟨hp, hall⟩ | ⟨hp, hall, hgt⟩
    · exact ⟨by omega, fun t ht => hall t (by omega), fun h => absurd hp (by omega)⟩
    · exact ⟨by omega, hall, fun _ => hgt⟩
  | fuel + 1, i, pos0, hfi, hinv, m, pos, hrun, hm => by
    rw [leafMPosAux] at hrun
    split at hrun
    · cases hrun
      omega
    · split at hrun
      · rename_i hcond
        refine leafMPosAux_char cap l k fuel (i + 1) i (by omega) ?_ m pos hrun hm
        rcases hinv with ⟨hp, hall⟩ | ⟨hp, _, _⟩
        · exact Or.inr ⟨by omega, hall, hcond.2⟩
        · omega
      · rename_i hcond
        refine leafMPosAux_char cap l k fuel (i + 1) pos0 (by omega) ?_ m pos hrun hm
        rcases hinv with ⟨hp, hall⟩ | ⟨hp, hall, hgt⟩
        · refine Or.inl ⟨hp, fun t ht => ?_⟩
          rcases Nat.lt_or_ge t i with h | h
          · exact hall t h
          · have hti : t = i := by omega
            subst hti
            by_contra hc
            exact hcond ⟨hp, by omega⟩
        · exact Or.inr ⟨by omega, hall, hgt⟩

theorem leafFindMPos_full_char (cap : Nat) (l : LeafNode) (k : Int) (pos : Nat)
    (h : leafFindMPos cap l k = (cap, pos)) :
    pos ≤ cap ∧ (∀ t, t < pos → l.keyArray.getD t 0 ≤ k) ∧
      (pos < cap → k < l.keyArray.getD pos 0) :=
  leafMPosAux_char cap l k cap 0 cap (by omega)
    (Or.inl ⟨rfl, fun t ht => absurd ht (by omega)⟩) cap pos h rfl

theorem mkLeaf_keys_length (L : Nat) : (mkLeaf L).keyArray.length = L := by
  simp [mkLeaf]

theorem compareOp_GT_eq_true {x y : Int} : compareOp x y .GT = true ↔ y < x := by
  simp [compareOp]

/-- Characterisation of the scan loop of `findPageNumInNode` under `GT` on
a left-packed node with `k` keys (children `0..k` valid, the rest
sentinels): the result is child `j` for the least `j` with `v < key j`, or
the last valid child `k`. -/
theorem findPageNumInNodeAux_GT_char (cap : Nat) (n : NonLeafNode) (v : Int) (k : Nat)
    (hk : k ≤ cap)
    (hvalid : ∀ i, i ≤ k → n.pageNoArray.getD i INVALID_PAGE ≠ INVALID_PAGE)
    (hsent : ∀ i, k < i → i ≤ cap → n.pageNoArray.getD i INVALID_PAGE = INVALID_PAGE) :
    ∀ (fuel i : Nat), i + fuel = cap + 1 → i ≤ k →
    (∀ t, t < i → n.keyArray.getD t 0 ≤ v) →
    ∃ j, findPageNumInNodeAux cap n v .GT fuel i = n.pageNoArray.getD j INVALID_PAGE ∧
      i ≤ j ∧ j ≤ k ∧ (∀ t, t < j → n.keyArray.getD t 0 ≤ v) ∧
      (j < k → v < n.keyArray.getD j 0)
  | 0, i, hfi, hik, _ => absurd hfi (by omega)
  | fuel + 1, i, hfi, hik, hprev => by
    rw [findPageNumInNodeAux]
    rw [if_pos (hvalid i hik)]
    by_cases hcond : i + 1 = cap + 1 ∨ n.pageNoArray.getD (i + 1) INVALID_PAGE = INVALID_PAGE ∨
        compareOp (n.keyArray.getD i 0) v .GT
    · rw [if_pos hcond]
      refine ⟨i, rfl, le_refl i, hik, hprev, fun hikk => ?_⟩
      rcases hcond with h | h | h
      · omega
      · exact absurd h (hvalid (i + 1) (by omega))
      · exact compareOp_GT_eq_true.mp h
    · rw [if_neg hcond]
      push_neg at hcond
      obtain ⟨h1, h2, h3⟩ := hcond
      have hik1 : i + 1 ≤ k := by
        by_contra hc
        exact h2 (hsent (i + 1) (by omega) (by omega))
      obtain ⟨j, hj⟩ := findPageNumInNodeAux_GT_char cap n v k hk hvalid hsent fuel (i + 1)
        (by omega) hik1
        (fun t ht => by
          rcases Nat.lt_or_ge t i with h | h
          · exact hprev t h
          · have hti : t = i := by omega
            subst hti
            have hnv : ¬ v < n.keyArray.getD t 0 := fun hv =>
              h3 (compareOp_GT_eq_true.mpr hv)
            omega)
      exact ⟨j, hj.1, by omega, hj.2.2.1, hj.2.2.2.1, hj.2.2.2.2⟩

/-- `findPageNumInNode` under `GT` on a left-packed node with `k` keys
returns the child whose separator is the smallest key exceeding the search
value, or the last valid child when no key exceeds it. -/
theorem findPageNumInNode_GT_char (cap : Nat) (n : NonLeafNode) (v : Int) (k : Nat)
    (hk : k ≤ cap)
    (hvalid : ∀ i, i ≤ k → n.pageNoArray.getD i INVALID_PAGE ≠ INVALID_PAGE)
    (hsent : ∀ i, k < i → i ≤ cap → n.pageNoArray.getD i INVALID_PAGE = INVALID_PAGE) :
    ∃ j, findPageNumInNode cap n v .GT = n.pageNoArray.getD j INVALID_PAGE ∧
      j ≤ k ∧ (∀ t, t < j → n.keyArray.getD t 0 ≤ v) ∧
      (j < k → v < n.keyArray.getD j 0) := by
  rw [findPageNumInNode]
  by_cases h1 : n.pageNoArray.getD 1 INVALID_PAGE = INVALID_PAGE
  · rw [if_pos h1]
    have hk0 : k = 0 := by
      by_contra hc
      exact hvalid 1 (by omega) h1
    exact ⟨0, rfl, by omega, fun t ht => absurd ht (by omega), by omega⟩
  · rw [if_neg h1]
    obtain ⟨j, hj⟩ := findPageNumInNodeAux_GT_char cap n v k hk hvalid hsent (cap + 1) 0
      (by omega) (by omega) (fun t ht => absurd ht (by omega))
    exact ⟨j, hj.1, hj.2.2.1, hj.2.2.2.1, hj.2.2.2.2⟩

theorem getPage_readPage (mc : Machine) (p q : Nat) :
    getPage (mc.readPage p) q = getPage mc q := rfl

theorem getPage_unPinPage (mc : Machine) (p q : Nat) (d : Bool) :
    getPage (mc.unPinPage p d) q = getPage mc q := rfl

theorem getPage_writePage_self (mc : Machine) (p : Nat) (c : PageContent)
    (hp : p ≠ 0) (hlt : p - 1 < mc.pages.length) :
    getPage (mc.writePage p c) p = c := by
  rw [getPage, if_neg hp]
  exact getD_set_self _ _ _ _ hlt

theorem getPage_writePage_ne (mc : Machine) (p q : Nat) (c : PageContent)
    (hp : p ≠ 0) (hq : q ≠ p) :
    getPage (mc.writePage p c) q = getPage mc q := by
  by_cases h0 : q = 0
  · rw [h0]
    rfl
  · rw [getPage, if_neg h0, getPage, if_neg h0]
    have hne : p - 1 ≠ q - 1 := by omega
    exact getD_set_ne _ _ _ _ _ hne

/-- The no-split branch of `insertRIDKeyPair`: a non-full leaf is updated
in place. -/
theorem insertRIDKeyPairM_notfull (mc : Machine) (t : Nat) (rk : RecordId × Int)
    (h : (leafFindMPos mc.leafOccupancy (getLeaf mc t) rk.2).1 ≠ mc.leafOccupancy) :
    insertRIDKeyPairM mc t rk =
      (mc.writePage t (.leaf (insertRIDKeyPairAux (getLeaf mc t)
          (leafFindMPos mc.leafOccupancy (getLeaf mc t) rk.2).1 rk
          (leafFindMPos mc.leafOccupancy (getLeaf mc t) rk.2).2)),
        true, (0, 0)) := by
  rw [insertRIDKeyPairM, if_pos h]

/-- The only exception that can leave the tail of `startScan` is
`NoSuchKeyFound`. -/
theorem startScanTail_err (fuel : Nat) (mc6 mc' : Machine) (e : BErr)
    (h : startScanTail fuel mc6 = some (mc', some e)) : e = .NoSuchKeyFound := by
  rw [startScanTail] at h
  rcases hu : updateScanEntryM fuel mc6 with _ | ⟨mc7, found⟩
  · simp only [hu] at h
    cases h
  · cases found
    · simp only [hu] at h
      rw [if_neg (by decide)] at h
      simp only [Option.some.injEq, Prod.mk.injEq] at h
      exact h.2.symm
    · simp only [hu] at h
      rw [if_pos (by decide)] at h
      simp only [Option.some.injEq, Prod.mk.injEq] at h
      exact absurd h.2 (by simp)

/-- The only exception that can leave the descend-and-advance part of
`startScan` is `NoSuchKeyFound`. -/
theorem startScanFind_err (fuel : Nat) (mc2 mc' : Machine) (lo : Int) (lop : Operator)
    (e : BErr) (h : startScanFind fuel mc2 lo lop = some (mc', some e)) :
    e = .NoSuchKeyFound := by
  rw [startScanFind] at h
  rcases hf : findLeafPageNumM fuel mc2 lo lop with _ | ⟨mc3, leafPid⟩
  · simp only [hf] at h
    cases h
  · simp only [hf] at h
    by_cases hlp : leafPid = INVALID_PAGE
    · rw [if_neg (not_not_intro hlp)] at h
      obtain ⟨-, hx⟩ : _ ∧ some BErr.NoSuchKeyFound = some e := by
        simpa using h
      cases hx
      rfl
    · rw [if_pos hlp] at h
      exact startScanTail_err fuel _ mc' e h

/-- `insertRIDKeyPair` leaves the pin multiset and the root page number of
the index unchanged (the split page it allocates is unpinned before
returning). -/
theorem insertRIDKeyPairM_state (mc : Machine) (t : Nat) (rk : RecordId × Int) :
    (insertRIDKeyPairM mc t rk).1.pinned = mc.pinned ∧
    (insertRIDKeyPairM mc t rk).1.rootPageNum = mc.rootPageNum := by
  rw [insertRIDKeyPairM]
  by_cases h : (leafFindMPos mc.leafOccupancy (getLeaf mc t) rk.2).1 ≠ mc.leafOccupancy
  · rw [if_pos h]
    exact ⟨rfl, rfl⟩
  · rw [if_neg h]
    refine ⟨?_, rfl⟩
    show (((mc.pages.length + 1) :: mc.pinned).erase (mc.pages.length + 1)) = mc.pinned
    exact List.erase_cons_head _ _

/-- The post-child stage of `insertEntryAux` releases the child pin (and
the pin of any split page it allocates) and does not change the root page
number. -/
theorem insertEntryAuxAfter_state (mc2 : Machine) (pid nxt : Nat) (ok : Bool)
    (pushed : Nat × Int) (P : List Nat) (hp : mc2.pinned = nxt :: P) :
    (insertEntryAuxAfter mc2 pid nxt ok pushed).1.pinned = P ∧
    (insertEntryAuxAfter mc2 pid nxt ok pushed).1.rootPageNum = mc2.rootPageNum := by
  simp only [insertEntryAuxAfter]
  split
  · refine ⟨?_, rfl⟩
    show mc2.pinned.erase nxt = P
    rw [hp]
    exact List.erase_cons_head _ _
  · split
    · refine ⟨?_, rfl⟩
      show mc2.pinned.erase nxt = P
      rw [hp]
      exact List.erase_cons_head _ _
    · refine ⟨?_, rfl⟩
      show (((mc2.unPinPage nxt true).pages.length + 1) :: (mc2.pinned.erase nxt)).erase
        ((mc2.unPinPage nxt true).pages.length + 1) = P
      rw [List.erase_cons_head, hp]
      exact List.erase_cons_head _ _

/-- `insertEntryAux` leaves the pin multiset and the root page number
unchanged on every successful run. -/
theorem insertEntryAuxM_state : ∀ (fuel : Nat) (mc : Machine) (pid : Nat)
    (rk : RecordId × Int) (mc' : Machine) (ok : Bool) (pk : Nat × Int),
    insertEntryAuxM fuel mc pid rk = some (mc', ok, pk) →
    mc'.pinned = mc.pinned ∧ mc'.rootPageNum = mc.rootPageNum
  | 0, _, _, _, _, _, _, h => by cases h
  | fuel + 1, mc, pid, rk, mc', ok, pk, h => by
    simp only [insertEntryAuxM, Option.map_eq_some'] at h
    obtain ⟨r, hbase, hafter⟩ := h
    have h2 : r.1.pinned =
        (findPageNumInNode mc.nodeOccupancy (getNode mc pid) rk.2 .GT) :: mc.pinned ∧
        r.1.rootPageNum = mc.rootPageNum := by
      by_cases hl : (getNode mc pid).level = 1
      · rw [if_pos hl] at hbase
        have hb := Option.some.inj hbase
        rw [← hb]
        exact insertRIDKeyPairM_state
          (mc.readPage (findPageNumInNode mc.nodeOccupancy (getNode mc pid) rk.2 .GT))
          (findPageNumInNode mc.nodeOccupancy (getNode mc pid) rk.2 .GT) rk
      · rw [if_neg hl] at hbase
        exact insertEntryAuxM_state fuel _ _ _ r.1 r.2.1 r.2.2 hbase
    have hafter' := insertEntryAuxAfter_state r.1 pid
      (findPageNumInNode mc.nodeOccupancy (getNode mc pid) rk.2 .GT) r.2.1 r.2.2
      mc.pinned h2.1
    rw [hafter] at hafter'
    exact ⟨hafter'.1, hafter'.2.trans h2.2⟩

/-- `insertEntry` leaves the pin multiset of the index unchanged: every
page it pins (descent path, split pages, a fresh root) is unpinned before
it returns. -/
theorem insertEntryM_pinned (fuel : Nat) (mc : Machine) (key : Int) (rid : RecordId)
    (mc' : Machine) (h : insertEntryM fuel mc key rid = some mc') :
    mc'.pinned = mc.pinned := by
  simp only [insertEntryM] at h
  rcases ha : insertEntryAuxM fuel (mc.readPage mc.rootPageNum) mc.rootPageNum (rid, key)
    with _ | ⟨mc2, ok2, pushed⟩
  · simp only [ha] at h
    cases h
  · simp only [ha] at h
    obtain ⟨hpin, hroot⟩ := insertEntryAuxM_state fuel _ _ _ _ _ _ ha
    by_cases hok : ok2 = true
    · rw [if_pos hok] at h
      cases h
      show mc2.pinned.erase mc2.rootPageNum = mc.pinned
      rw [hpin, hroot]
      exact List.erase_cons_head _ _
    · rw [if_neg hok] at h
      cases h
      show ((((mc2.unPinPage mc2.rootPageNum true).pages.length + 1) ::
          (mc2.pinned.erase mc2.rootPageNum)).erase
        ((mc2.unPinPage mc2.rootPageNum true).pages.length + 1)) = mc.pinned
      rw [List.erase_cons_head, hpin, hroot]
      exact List.erase_cons_head _ _

/-- The loop of `findLeafPageNum` unpins the page pinned at entry and pins
nothing else on return; it touches no index field other than the buffer
state. -/
theorem findLeafLoop_state : ∀ (fuel : Nat) (mc : Machine) (cur : Nat) (val : Int)
    (op : Operator) (mc' : Machine) (pid : Nat),
    findLeafLoop fuel mc cur val op = some (mc', pid) →
    mc'.pinned = mc.pinned.erase cur ∧ mc'.scanExecuting = mc.scanExecuting ∧
    mc'.nextEntry = mc.nextEntry ∧ mc'.currentPageNum = mc.currentPageNum ∧
    mc'.pages = mc.pages
  | 0, _, _, _, _, _, _, h => by cases h
  | fuel + 1, mc, cur, val, op, mc', pid, h => by
    simp only [findLeafLoop] at h
    split at h
    · cases h
      exact ⟨rfl, rfl, rfl, rfl, rfl⟩
    · have ih := findLeafLoop_state fuel _ _ val op mc' pid h
      refine ⟨?_, ih.2.1, ih.2.2.1, ih.2.2.2.1, ih.2.2.2.2⟩
      rw [ih.1]
      exact List.erase_cons_head _ _

/-- `findLeafPageNum` returns with the pin multiset it started from. -/
theorem findLeafPageNumM_state (fuel : Nat) (mc : Machine) (val : Int) (op : Operator)
    (mc' : Machine) (pid : Nat) (h : findLeafPageNumM fuel mc val op = some (mc', pid)) :
    mc'.pinned = mc.pinned ∧ mc'.scanExecuting = mc.scanExecuting ∧
    mc'.nextEntry = mc.nextEntry ∧ mc'.currentPageNum = mc.currentPageNum ∧
    mc'.pages = mc.pages := by
  rw [findLeafPageNumM] at h
  have hl := findLeafLoop_state fuel _ _ val op mc' pid h
  refine ⟨?_, hl.2.1, hl.2.2.1, hl.2.2.2.1, hl.2.2.2.2⟩
  rw [hl.1]
  exact List.erase_cons_head _ _

/-- `endScan` releases the scan pin (when one is held). -/
theorem endScanM_pinned (mc : Machine)
    (hpin : mc.pinned =
      if mc.scanExecuting = true ∧ mc.currentPageNum ≠ 0 then [mc.currentPageNum] else []) :
    (endScanM mc).1.pinned = [] := by
  rw [endScanM]
  by_cases hs : mc.scanExecuting = false
  · rw [if_pos hs]
    rw [hpin, if_neg (by simp [hs])]
  · rw [if_neg hs]
    by_cases hc : mc.currentPageNum ≠ INVALID_PAGE
    · rw [if_pos hc]
      show mc.pinned.erase mc.currentPageNum = []
      rw [hpin, if_pos ⟨by simpa using hs, hc⟩]
      exact List.erase_cons_head _ _
    · rw [if_neg hc]
      show mc.pinned = []
      rw [hpin, if_neg (fun hand => hc hand.2)]

/-- The sibling-crossing step unpins the old current leaf first, then pins
the sibling, which becomes the single pinned page. -/
theorem scanCross_state (mc : Machine) (sib : Nat)
    (hpin : mc.pinned = [mc.currentPageNum]) :
    (scanCross mc sib).pinned = [(scanCross mc sib).currentPageNum] ∧
    (scanCross mc sib).currentPageNum = sib ∧
    (scanCross mc sib).scanExecuting = mc.scanExecuting ∧
    (scanCross mc sib).events =
      mc.events ++ [Ev.unpin mc.currentPageNum false, Ev.pin sib] := by
  refine ⟨?_, rfl, rfl, ?_⟩
  · show sib :: (mc.pinned.erase mc.currentPageNum) = [sib]
    rw [hpin, List.erase_cons_head]
  · show (mc.events ++ [Ev.unpin mc.currentPageNum false]) ++ [Ev.pin sib] =
      mc.events ++ [Ev.unpin mc.currentPageNum false, Ev.pin sib]
    rw [List.append_assoc]
    rfl

/-- The not-found exit of the scan loop unpins the current leaf and resets
the scan position. -/
theorem scanExitNotFound_state (mc : Machine) (hpin : mc.pinned = [mc.currentPageNum]) :
    (scanExitNotFound mc).pinned = [] ∧ (scanExitNotFound mc).currentPageNum = 0 ∧
    (scanExitNotFound mc).nextEntry = -1 ∧
    (scanExitNotFound mc).scanExecuting = mc.scanExecuting ∧
    (scanExitNotFound mc).events = mc.events ++ [Ev.unpin mc.currentPageNum false] := by
  refine ⟨?_, rfl, rfl, rfl, rfl⟩
  show mc.pinned.erase mc.currentPageNum = []
  rw [hpin, List.erase_cons_head]

/-- One scan-loop iteration that continues keeps the single-pin invariant
and either stays on the same leaf (no events) or crosses: unpin of the old
leaf immediately followed by the pin of the new one. -/
theorem updateScanIter_inl_spec (mc mc1 : Machine)
    (hpin : mc.pinned = [mc.currentPageNum]) (hcur : mc.currentPageNum ≠ 0)
    (h : updateScanIter mc = .inl mc1) :
    mc1.pinned = [mc1.currentPageNum] ∧ mc1.currentPageNum ≠ 0 ∧
    mc1.scanExecuting = mc.scanExecuting ∧
    ((mc1.events = mc.events ∧ mc1.currentPageNum = mc.currentPageNum) ∨
      mc1.events = mc.events ++
        [Ev.unpin mc.currentPageNum false, Ev.pin mc1.currentPageNum]) := by
  simp only [updateScanIter] at h
  by_cases hA : mc.nextEntry + 1 ≥ (mc.leafOccupancy : Int) ∨
      ((getLeaf { mc with nextEntry := mc.nextEntry + 1 } mc.currentPageNum).ridArray.getD
        (mc.nextEntry + 1).toNat invalidRid).page_number = INVALID_PAGE
  · by_cases hS : (getLeaf { mc with nextEntry := mc.nextEntry + 1 }
        mc.currentPageNum).rightSibPageNo = INVALID_PAGE
    · rw [if_pos ⟨hA, hS⟩] at h
      cases h
    · rw [if_neg (fun hand => hS hand.2), if_pos hA] at h
      split at h
      · cases h
        obtain ⟨hc1, hc2, hc3, hc4⟩ := scanCross_state
          { mc with nextEntry := mc.nextEntry + 1 }
          (getLeaf { mc with nextEntry := mc.nextEntry + 1 } mc.currentPageNum).rightSibPageNo
          hpin
        refine ⟨hc1, ?_, hc3, Or.inr ?_⟩
        · rw [hc2]
          exact hS
        · rw [hc2]
          exact hc4
      · split at h <;> cases h
  · rw [if_neg (fun hand => hA hand.1), if_neg hA] at h
    split at h
    · cases h
      exact ⟨hpin, hcur, rfl, Or.inl ⟨rfl, rfl⟩⟩
    · split at h <;> cases h

/-- One scan-loop iteration that stops: on "found" one pin (the current
leaf) is held; on "not found" no pin is held and the position is reset; in
all cases the emitted events follow the unpin-before-pin pattern. -/
theorem updateScanIter_inr_spec (mc mc1 : Machine) (f : Bool)
    (hpin : mc.pinned = [mc.currentPageNum]) (hcur : mc.currentPageNum ≠ 0)
    (h : updateScanIter mc = .inr (mc1, f)) :
    mc1.scanExecuting = mc.scanExecuting ∧
    (f = true → mc1.pinned = [mc1.currentPageNum] ∧ mc1.currentPageNum ≠ 0) ∧
    (f = false → mc1.pinned = [] ∧ mc1.currentPageNum = 0 ∧ mc1.nextEntry = -1) ∧
    ∃ evs, mc1.events = mc.events ++ evs ∧ ScanPinEvs mc.currentPageNum evs := by
  simp only [updateScanIter] at h
  by_cases hA : mc.nextEntry + 1 ≥ (mc.leafOccupancy : Int) ∨
      ((getLeaf { mc with nextEntry := mc.nextEntry + 1 } mc.currentPageNum).ridArray.getD
        (mc.nextEntry + 1).toNat invalidRid).page_number = INVALID_PAGE
  · by_cases hS : (getLeaf { mc with nextEntry := mc.nextEntry + 1 }
        mc.currentPageNum).rightSibPageNo = INVALID_PAGE
    · rw [if_pos ⟨hA, hS⟩] at h
      cases h
      obtain ⟨he1, he2, he3, he4, he5⟩ := scanExitNotFound_state
        { mc with nextEntry := mc.nextEntry + 1 } hpin
      refine ⟨he4, ?_, ?_, ⟨[Ev.unpin mc.currentPageNum false], he5, ScanPinEvs.exitUnpin _⟩⟩
      · intro hf
        simp at hf
      · intro hf2
        exact ⟨he1, he2, he3⟩
    · rw [if_neg (fun hand => hS hand.2), if_pos hA] at h
      obtain ⟨hc1, hc2, hc3, hc4⟩ := scanCross_state
        { mc with nextEntry := mc.nextEntry + 1 }
        (getLeaf { mc with nextEntry := mc.nextEntry + 1 } mc.currentPageNum).rightSibPageNo
        hpin
      split at h
      · cases h
      · split at h
        · cases h
          obtain ⟨he1, he2, he3, he4, he5⟩ := scanExitNotFound_state _ hc1
          refine ⟨he4.trans hc3, ?_, ?_,
            ⟨[Ev.unpin mc.currentPageNum false,
              Ev.pin (getLeaf { mc with nextEntry := mc.nextEntry + 1 }
                mc.currentPageNum).rightSibPageNo,
              Ev.unpin (getLeaf { mc with nextEntry := mc.nextEntry + 1 }
                mc.currentPageNum).rightSibPageNo false], ?_, ?_⟩⟩
          · intro hf
            simp at hf
          · intro hf2
            exact ⟨he1, he2, he3⟩
          · rw [he5, hc4, hc2, List.append_assoc]
            rfl
          · exact ScanPinEvs.cross _ _ _ (ScanPinEvs.exitUnpin _)
        · cases h
          refine ⟨hc3, ?_, ?_,
            ⟨[Ev.unpin mc.currentPageNum false,
              Ev.pin (getLeaf { mc with nextEntry := mc.nextEntry + 1 }
                mc.currentPageNum).rightSibPageNo], hc4,
            ScanPinEvs.cross _ _ _ (ScanPinEvs.nil _)⟩⟩
          · intro ht
            refine ⟨hc1, ?_⟩
            rw [hc2]
            exact hS
          · intro hf
            simp at hf
  · rw [if_neg (fun hand => hA hand.1), if_neg hA] at h
    split at h
    · cases h
    · split at h
      · cases h
        obtain ⟨he1, he2, he3, he4, he5⟩ := scanExitNotFound_state
          { mc with nextEntry := mc.nextEntry + 1 } hpin
        refine ⟨he4, ?_, ?_, ⟨[Ev.unpin mc.currentPageNum false], he5, ScanPinEvs.exitUnpin _⟩⟩
        · intro hf
          simp at hf
        · intro hf2
          exact ⟨he1, he2, he3⟩
      · cases h
        refine ⟨rfl, ?_, ?_, ⟨[], by rw [List.append_nil], ScanPinEvs.nil _⟩⟩
        · intro ht
          exact ⟨hpin, hcur⟩
        · intro hf
          simp at hf

/-- `updateScanEntry` keeps exactly one pin while positioned, drops to zero
pins on exhaustion, and its event suffix follows the unpin-before-pin
crossing pattern. -/
theorem updateScanEntryM_state : ∀ (fuel : Nat) (mc mc' : Machine) (f : Bool),
    mc.pinned = [mc.currentPageNum] → mc.currentPageNum ≠ 0 →
    updateScanEntryM fuel mc = some (mc', f) →
    mc'.scanExecuting = mc.scanExecuting ∧
    (f = true → mc'.pinned = [mc'.currentPageNum] ∧ mc'.currentPageNum ≠ 0) ∧
    (f = false → mc'.pinned = [] ∧ mc'.currentPageNum = 0 ∧ mc'.nextEntry = -1) ∧
    ∃ evs, mc'.events = mc.events ++ evs ∧ ScanPinEvs mc.currentPageNum evs
  | 0, _, _, _, _, _, h => by cases h
  | fuel + 1, mc, mc', f, hpin, hcur, h => by
    rw [updateScanEntryM] at h
    rcases hit : updateScanIter mc with mc1 | r
    · rw [hit] at h
      obtain ⟨hi1, hi2, hi3, hi4⟩ := updateScanIter_inl_spec mc mc1 hpin hcur hit
      obtain ⟨hd1, hd2, hd3, hd4⟩ := updateScanEntryM_state fuel mc1 mc' f hi1 hi2 h
      obtain ⟨evs, hevs, hstruct⟩ := hd4
      refine ⟨hd1.trans hi3, hd2, hd3, ?_⟩
      rcases hi4 with ⟨hev, hcu⟩ | hev
      · exact ⟨evs, by rw [hevs, hev], by rw [← hcu]; exact hstruct⟩
      · refine ⟨Ev.unpin mc.currentPageNum false :: Ev.pin mc1.currentPageNum :: evs, ?_,
          ScanPinEvs.cross _ _ _ hstruct⟩
        rw [hevs, hev, List.append_assoc]
        rfl
    · rw [hit] at h
      cases h
      exact updateScanIter_inr_spec mc mc' f hpin hcur hit

/-- In an event list of the shapes emitted by the scan loop, every pin is
immediately preceded by a clean unpin. -/
theorem scanPinEvs_pin_preceded : ∀ (c : Nat) (evs : List Ev), ScanPinEvs c evs →
    ∀ i b, evs.getD i (Ev.alloc 0) = Ev.pin b →
      1 ≤ i ∧ ∃ a, evs.getD (i - 1) (Ev.alloc 0) = Ev.unpin a false := by
  intro c evs h
  induction h with
  | nil c =>
    intro i b hi
    simp [List.getD_nil] at hi
  | exitUnpin c =>
    intro i b hi
    match i with
    | 0 => simp [List.getD_cons_zero] at hi
    | n + 1 => simp [List.getD_cons_succ, List.getD_nil] at hi
  | cross c b rest hrest ih =>
    intro i b2 hi
    match i with
    | 0 => simp [List.getD_cons_zero] at hi
    | 1 =>
      refine ⟨le_refl 1, c, ?_⟩
      simp [List.getD_cons_zero]
    | n + 2 =>
      simp only [List.getD_cons_succ] at hi
      obtain ⟨hn, a, ha⟩ := ih n b2 hi
      obtain ⟨m, rfl⟩ : ∃ m, n = m + 1 := ⟨n - 1, by omega⟩
      refine ⟨by omega, a, ?_⟩
      show (Ev.unpin c false :: Ev.pin b :: rest).getD (m + 1 + 1) (Ev.alloc 0) = _
      rw [List.getD_cons_succ, List.getD_cons_succ]
      simpa using ha

/-- When the tail of `startScan` fails with `NoSuchKeyFound`, the scan is
left active but unpositioned, with no page pinned. -/
theorem startScanTail_noSuchKey (fuel : Nat) (mc6 mc2 : Machine)
    (hpin : mc6.pinned = [mc6.currentPageNum]) (hcur : mc6.currentPageNum ≠ 0)
    (h : startScanTail fuel mc6 = some (mc2, some .NoSuchKeyFound)) :
    mc2.scanExecuting = mc6.scanExecuting ∧ mc2.nextEntry = -1 ∧
    mc2.currentPageNum = 0 ∧ mc2.pinned = [] := by
  rw [startScanTail] at h
  rcases hu : updateScanEntryM fuel mc6 with _ | ⟨mc7, found⟩
  · simp only [hu] at h
    cases h
  · simp only [hu] at h
    cases found
    · rw [if_neg (by decide)] at h
      obtain rfl : mc7 = mc2 := by simpa using h
      obtain ⟨hs, -, hff, -⟩ := updateScanEntryM_state fuel mc6 mc7 false hpin hcur hu
      obtain ⟨hp, hc, hn⟩ := hff rfl
      exact ⟨hs, hn, hc, hp⟩
    · rw [if_pos (by decide)] at h
      simp at h

/-- When the descend-and-advance part of `startScan` fails with
`NoSuchKeyFound` from a clean pre-state, the scan is left active but
unpositioned, with no page pinned. -/
theorem startScanFind_noSuchKey (fuel : Nat) (mc2 mc9 : Machine) (lo : Int)
    (lop : Operator) (hpin : mc2.pinned = []) (hne : mc2.nextEntry = -1)
    (h : startScanFind fuel mc2 lo lop = some (mc9, some .NoSuchKeyFound)) :
    mc9.scanExecuting = mc2.scanExecuting ∧ mc9.nextEntry = -1 ∧
    mc9.currentPageNum = 0 ∧ mc9.pinned = [] := by
  rw [startScanFind] at h
  rcases hf : findLeafPageNumM fuel mc2 lo lop with _ | ⟨mc3, leafPid⟩
  · simp only [hf] at h
    cases h
  · simp only [hf] at h
    obtain ⟨hp3, hs3, hn3, -, -⟩ := findLeafPageNumM_state fuel mc2 lo lop mc3 leafPid hf
    by_cases hlp : leafPid = INVALID_PAGE
    · rw [if_neg (not_not_intro hlp)] at h
      obtain rfl : { mc3 with currentPageNum := leafPid } = mc9 := by simpa using h
      exact ⟨hs3, hn3.trans hne, hlp, hp3.trans hpin⟩
    · rw [if_pos hlp] at h
      have h6 := startScanTail_noSuchKey fuel
        { ({ mc3 with currentPageNum := leafPid }).readPage leafPid with nextEntry := -1 }
        mc9 (by show leafPid :: mc3.pinned = [leafPid]; rw [hp3, hpin]) hlp h
      exact ⟨h6.1.trans hs3, h6.2.1, h6.2.2.1, h6.2.2.2⟩

/-! ### Claim theorems -/

/-- C1 (code bug): scan completeness fails.  With `leafOccupancy = 2`,
`nodeOccupancy = 4`, inserting keys 10,20,30,40,50,60,70 splits the root;
the subsequent insert of key 35 is routed into the leaf holding key 20
(the split moved that leaf's upper region to the new right node while its
stale separator stayed behind), so the leaf chain reads ...,20,35,30,...
and the scan `(30, GTE, 30, LTE)` stops at 35 and yields no record ids,
although the record id of key 30 satisfies both bounds in the insertion
history. -/
theorem C1_scan_incomplete :
    runScanCollect 50 50 (build2x4 hist8) 30 .GTE 30 .LTE = some [] ∧
    qualifyingRids hist8 30 .GTE 30 .LTE = [⟨30, 1, 0⟩] ∧
    ([] : List RecordId) ≠ [⟨30, 1, 0⟩] := by
  refine ⟨by decide, by decide, by decide⟩

/-- C2 (code bug): round-trip persistence fails.  Building from `hist8`,
closing and reopening with matching metadata succeeds, but the point scan
`(30, GTE, 30, LTE)` on the reopened index yields nothing although key 30
was inserted (same wrong-leaf routing as C1; moreover the reopened root is
the stale pre-split root recorded in the header). -/
theorem C2_reopen_key_lost :
    (openIndex 2 4 (closeIndex (build2x4 hist8)).pages "rel.0" 0 .INTEGER).2 = none ∧
    runScanCollect 50 50
      (openIndex 2 4 (closeIndex (build2x4 hist8)).pages "rel.0" 0 .INTEGER).1
      30 .GTE 30 .LTE = some [] ∧
    (⟨30, 1, 0⟩, (30 : Int)) ∈ hist8 := by
  refine ⟨by decide, by decide, by decide⟩

/-- C3 (code bug): after the 7th insert of `hist7` splits the root, the
in-memory `rootPageNum` is the newly allocated page 10 but the
`rootPageNo` field of the header page still holds the original root page 2,
so the in-memory root disagrees with the header at the public method
boundary. -/
theorem C3_header_not_updated :
    (build2x4 hist7).rootPageNum = 10 ∧
    (getMeta (build2x4 hist7) (build2x4 hist7).headerPageNum).rootPageNo = 2 ∧
    (build2x4 hist7).rootPageNum ≠
      (getMeta (build2x4 hist7) (build2x4 hist7).headerPageNum).rootPageNo := by
  refine ⟨by decide, by decide, by decide⟩

/-- C4 (code bug): splitting the full internal node `fullNode4`
(keys 10,20,30,40 over children 100..104) on the pushed-up pair
`(999, 35)` gives `m = 4`, `pos = 3 > mid = 2`; the median key 30 is pushed
up yet remains as key 0 of the split node, key 40 disappears from both
halves, and child 104 is lost from the tree. -/
theorem C4_split_loses_child :
    nodeFindMPos 4 fullNode4 35 = (4, 3) ∧
    (nodeSplitCore 4 fullNode4 (999, 35) 4 3 99).2.2 = (99, 30) ∧
    (nodeSplitCore 4 fullNode4 (999, 35) 4 3 99).2.1.keyArray.getD 0 0 = 30 ∧
    (40 : Int) ∉ (nodeSplitCore 4 fullNode4 (999, 35) 4 3 99).1.keyArray ∧
    (40 : Int) ∉ (nodeSplitCore 4 fullNode4 (999, 35) 4 3 99).2.1.keyArray ∧
    (104 : Nat) ∉ (nodeSplitCore 4 fullNode4 (999, 35) 4 3 99).1.pageNoArray ∧
    (104 : Nat) ∉ (nodeSplitCore 4 fullNode4 (999, 35) 4 3 99).2.1.pageNoArray := by
  refine ⟨by decide, by decide, by decide, by decide, by decide, by decide, by decide⟩

/-- C6 (counterexample): on the node of `m6` (separator key 5 over leaves
3 and 4) the locate primitive under `GTE` selects child 3, but inserting
key 5 places the new record id into leaf 4 — the descent does not use
`GTE` (it uses `GT`, see line 501 of btree.cpp). -/
theorem C6_counterexample :
    findPageNumInNode 4 (getNode m6 2) 5 .GTE = 3 ∧
    findPageNumInNode 4 (getNode m6 2) 5 .GT = 4 ∧
    (getLeaf (runInsert 20 m6 5 ⟨9, 9, 0⟩) 4).ridArray.getD 0 invalidRid = ⟨9, 9, 0⟩ ∧
    getLeaf (runInsert 20 m6 5 ⟨9, 9, 0⟩) 3 = getLeaf m6 3 ∧
    (3 : Nat) ≠ 4 := by
  refine ⟨by decide, by decide, by decide, by decide, by decide⟩

/-- C7 (counterexample): with the index file for `("rel", 0, INTEGER)`
present, constructing a `BTreeIndex` for `("rel", 1, INTEGER)` derives the
file name "rel.1", finds no such file, and successfully creates a fresh
index instead of raising `BAD_INDEX_INFO`. -/
theorem C7_counterexample :
    ctorOutcome 30 2 4 fs0 "rel" 1 .INTEGER [] = some ("rel.1", none) ∧
    (none : Option BErr) ≠ some .BadIndexInfo := by
  refine ⟨by decide, by decide⟩

/-- C9 (counterexample): on the single-key index `tinyM`, `startScan`
`(10, GTE, 10, LTE)` succeeds, and the first `scanNext` yields the record
id and exhausts the scan — between this `scanNext` call and the next one
the scan is still active (`scanExecuting = true`) but holds zero pins, not
exactly one. -/
theorem C9_counterexample :
    (startScanM 50 tinyM 10 .GTE 10 .LTE).map (fun p => p.2) = some none ∧
    (scanNextM 50 (runStartScanState 50 tinyM 10 .GTE 10 .LTE)).map (fun p => p.2) =
      some (.ok ⟨10, 1, 0⟩) ∧
    (runScanNextState 50 (runStartScanState 50 tinyM 10 .GTE 10 .LTE)).scanExecuting = true ∧
    (runScanNextState 50 (runStartScanState 50 tinyM 10 .GTE 10 .LTE)).pinned = [] := by
  refine ⟨by decide, by decide, by decide, by decide⟩

/-- C5 (confirmed): when a full leaf (`m = leafOccupancy = L`) splits, the
pair handed to the parent is `(split page id, first key of the new leaf)`;
when the new entry goes into the left half (`pos ≤ mid`), the key at index
`mid` of the original leaf after the in-place insert equals the first key
of the new right sibling; and for a sorted leaf the copied-up separator is
(still) the smallest key of the right leaf. -/
theorem C5_leaf_split (L pos : Nat) (l : LeafNode) (rk : RecordId × Int)
    (splitPid : Nat) (hcap : 3 ≤ L) (hklen : l.keyArray.length = L)
    (hscan : leafFindMPos L l rk.2 = (L, pos)) :
    (leafSplitCore L l rk L pos splitPid).2.2 =
      (splitPid, (leafSplitCore L l rk L pos splitPid).2.1.keyArray.getD 0 0) ∧
    (pos ≤ (L + 1) / 2 →
      (insertRIDKeyPairAux l ((L + 1) / 2) rk pos).keyArray.getD ((L + 1) / 2) 0 =
        (leafSplitCore L l rk L pos splitPid).2.1.keyArray.getD 0 0) ∧
    ((∀ i j, i ≤ j → j < L → l.keyArray.getD i 0 ≤ l.keyArray.getD j 0) →
      ∀ j, j ≤ L - (L + 1) / 2 →
        (leafSplitCore L l rk L pos splitPid).2.1.keyArray.getD 0 0 ≤
          (leafSplitCore L l rk L pos splitPid).2.1.keyArray.getD j 0) := by
  obtain ⟨hposle, hbelow, habove⟩ := leafFindMPos_full_char L l rk.2 pos hscan
  have hsp0len :
      (clearLeaf (mkLeaf L) l.rightSibPageNo 0 L).keyArray.length = L := by
    rw [clearLeaf_keys_length, mkLeaf_keys_length]
  by_cases hple : pos ≤ (L + 1) / 2
  · simp only [leafSplitCore, if_pos hple]
    have hsp1len :
        (copyRightLeaf l (clearLeaf (mkLeaf L) l.rightSibPageNo 0 L) ((L + 1) / 2) 1
          (L - (L + 1) / 2)).keyArray.length = L := by
      rw [copyRightLeaf_keys_length, hsp0len]
    have hset0 :
        ∀ v : Int,
          ((copyRightLeaf l (clearLeaf (mkLeaf L) l.rightSibPageNo 0 L) ((L + 1) / 2) 1
            (L - (L + 1) / 2)).keyArray.set 0 v).getD 0 0 = v := by
      intro v
      exact getD_set_self _ 0 v 0 (by omega)
    refine ⟨trivial, fun _ => by rw [hset0], fun hsort j hj => ?_⟩
    rcases Nat.eq_zero_or_pos j with hj0 | hj1
    · subst hj0
      exact le_refl _
    · rw [hset0, getD_set_ne _ 0 j _ 0 (by omega),
        copyRightLeaf_keys_getD l _ _ _ _ j (by omega)]
      rw [if_pos (by omega)]
      -- right-hand side is the old leaf key at `mid + (j - 1)`
      have hidx : (L + 1) / 2 + (j - 1) < L := by omega
      rcases Nat.lt_or_ge pos ((L + 1) / 2) with hplt | hpge
      · -- the new median is the old key at `mid - 1`
        have hmidkey :
            (insertRIDKeyPairAux l ((L + 1) / 2) rk pos).keyArray.getD ((L + 1) / 2) 0 =
              l.keyArray.getD ((L + 1) / 2 - 1) 0 := by
          simp only [insertRIDKeyPairAux]
          rw [getD_set_ne _ pos _ _ 0 (by omega),
            shiftKeys_getD pos _ _ _ (by rw [hklen]; omega), if_pos (by omega)]
        rw [hmidkey]
        exact hsort ((L + 1) / 2 - 1) ((L + 1) / 2 + (j - 1)) (by omega) hidx
      · -- `pos = mid`: the new median is the inserted key itself
        have hpeq : pos = (L + 1) / 2 := by omega
        have hmidkey :
            (insertRIDKeyPairAux l ((L + 1) / 2) rk pos).keyArray.getD ((L + 1) / 2) 0 =
              rk.2 := by
          simp only [insertRIDKeyPairAux]
          rw [hpeq, getD_set_self _ _ _ 0 (by rw [shiftKeys_length, hklen]; omega)]
        rw [hmidkey]
        have h1 : rk.2 < l.keyArray.getD pos 0 := habove (by omega)
        have h2 : l.keyArray.getD pos 0 ≤ l.keyArray.getD ((L + 1) / 2 + (j - 1)) 0 :=
          hsort pos _ (by omega) hidx
        omega
  · simp only [leafSplitCore, if_neg hple]
    have hsp1len :
        (copyRightLeaf l (clearLeaf (mkLeaf L) l.rightSibPageNo 0 L) ((L + 1) / 2) 0
          (L - (L + 1) / 2)).keyArray.length = L := by
      rw [copyRightLeaf_keys_length, hsp0len]
    have hcopy :
        ∀ t, t < L - (L + 1) / 2 →
          (copyRightLeaf l (clearLeaf (mkLeaf L) l.rightSibPageNo 0 L) ((L + 1) / 2) 0
            (L - (L + 1) / 2)).keyArray.getD t 0 = l.keyArray.getD ((L + 1) / 2 + t) 0 := by
      intro t ht
      rw [copyRightLeaf_keys_getD l _ _ _ _ t (by omega), if_pos (by omega)]
      rfl
    have hshlen :
        pos - (L + 1) / 2 + (L - (L + 1) / 2 - (pos - (L + 1) / 2)) <
          (copyRightLeaf l (clearLeaf (mkLeaf L) l.rightSibPageNo 0 L) ((L + 1) / 2) 0
            (L - (L + 1) / 2)).keyArray.length := by
      omega
    have hins :
        ∀ t, t ≤ L - (L + 1) / 2 →
          (insertRIDKeyPairAux
              (copyRightLeaf l (clearLeaf (mkLeaf L) l.rightSibPageNo 0 L) ((L + 1) / 2) 0
                (L - (L + 1) / 2)) (L - (L + 1) / 2) rk
              (pos - (L + 1) / 2)).keyArray.getD t 0 =
            if t = pos - (L + 1) / 2 then rk.2
            else if pos - (L + 1) / 2 + 1 ≤ t then l.keyArray.getD ((L + 1) / 2 + (t - 1)) 0
            else l.keyArray.getD ((L + 1) / 2 + t) 0 := by
      intro t ht
      simp only [insertRIDKeyPairAux]
      by_cases hteq : t = pos - (L + 1) / 2
      · rw [if_pos hteq, hteq,
          getD_set_self _ _ _ 0 (by rw [shiftKeys_length]; omega)]
      · rw [if_neg hteq, getD_set_ne _ _ _ _ 0 (fun h => hteq h.symm),
          shiftKeys_getD _ _ _ _ hshlen]
        by_cases htr : pos - (L + 1) / 2 + 1 ≤ t ∧ t ≤ pos - (L + 1) / 2 + (L - (L + 1) / 2 - (pos - (L + 1) / 2))
        · rw [if_pos htr, if_pos (by omega), hcopy (t - 1) (by omega)]
        · rw [if_neg htr, if_neg (by omega), hcopy t (by omega)]
    have hfirst :
        (insertRIDKeyPairAux
            (copyRightLeaf l (clearLeaf (mkLeaf L) l.rightSibPageNo 0 L) ((L + 1) / 2) 0
              (L - (L + 1) / 2)) (L - (L + 1) / 2) rk
            (pos - (L + 1) / 2)).keyArray.getD 0 0 = l.keyArray.getD ((L + 1) / 2) 0 := by
      rw [hins 0 (by omega), if_neg (by omega), if_neg (by omega)]
      rfl
    refine ⟨trivial, fun hcon => absurd hcon hple, fun hsort j hj => ?_⟩
    rw [hfirst, hins j hj]
    by_cases hjp : j = pos - (L + 1) / 2
    · rw [if_pos hjp]
      exact hbelow ((L + 1) / 2) (by omega)
    · rw [if_neg hjp]
      by_cases hjr : pos - (L + 1) / 2 + 1 ≤ j
      · rw [if_pos hjr]
        exact hsort ((L + 1) / 2) ((L + 1) / 2 + (j - 1)) (by omega) (by omega)
      · rw [if_neg hjr]
        exact hsort ((L + 1) / 2) ((L + 1) / 2 + j) (by omega) (by omega)

/-- Witness for `C5_leaf_split` at `L = 4`, the full leaf `[1,2,3,4]` and
the new pair `(rid, 5)` (so `pos = 4 > mid`). -/
theorem C5_leaf_split_witness :
    (3 ≤ 4 ∧
      (LeafNode.mk [1, 2, 3, 4] [⟨1, 1, 0⟩, ⟨2, 1, 0⟩, ⟨3, 1, 0⟩, ⟨4, 1, 0⟩] 0).keyArray.length = 4 ∧
      leafFindMPos 4 (LeafNode.mk [1, 2, 3, 4] [⟨1, 1, 0⟩, ⟨2, 1, 0⟩, ⟨3, 1, 0⟩, ⟨4, 1, 0⟩] 0) 5 = (4, 4)) ∧
    (leafSplitCore 4 (LeafNode.mk [1, 2, 3, 4] [⟨1, 1, 0⟩, ⟨2, 1, 0⟩, ⟨3, 1, 0⟩, ⟨4, 1, 0⟩] 0)
        (⟨5, 1, 0⟩, 5) 4 4 77).2.2 =
      (77, (leafSplitCore 4 (LeafNode.mk [1, 2, 3, 4] [⟨1, 1, 0⟩, ⟨2, 1, 0⟩, ⟨3, 1, 0⟩, ⟨4, 1, 0⟩] 0)
        (⟨5, 1, 0⟩, 5) 4 4 77).2.1.keyArray.getD 0 0) := by
  refine ⟨⟨by decide, by decide, by decide⟩, ?_⟩
  exact (C5_leaf_split 4 4 (LeafNode.mk [1, 2, 3, 4] [⟨1, 1, 0⟩, ⟨2, 1, 0⟩, ⟨3, 1, 0⟩, ⟨4, 1, 0⟩] 0)
    (⟨5, 1, 0⟩, 5) 77 (by decide) (by decide) (by decide)).1

/-- C6 (amended): during `insertEntry`'s descent the child chosen for key
`v` at an internal node is the one selected by `findPageNumInNode` under
operator `GT` — the child whose separator is the smallest key `kᵢ > v`, or
the last valid child when no key exceeds `v`; for a `level = 1` node whose
chosen leaf is not full, the new entry is inserted into exactly that child
page and no other page changes. -/
theorem C6_descent_uses_GT (fuel : Nat) (mc : Machine) (pid : Nat) (rk : RecordId × Int)
    (k : Nat)
    (hlevel : (getNode mc pid).level = 1)
    (hk : k ≤ mc.nodeOccupancy)
    (hvalid : ∀ i, i ≤ k →
      (getNode mc pid).pageNoArray.getD i INVALID_PAGE ≠ INVALID_PAGE)
    (hsent : ∀ i, k < i → i ≤ mc.nodeOccupancy →
      (getNode mc pid).pageNoArray.getD i INVALID_PAGE = INVALID_PAGE)
    (htpage : findPageNumInNode mc.nodeOccupancy (getNode mc pid) rk.2 .GT - 1 <
      mc.pages.length)
    (hnotfull : (leafFindMPos mc.leafOccupancy
        (getLeaf mc (findPageNumInNode mc.nodeOccupancy (getNode mc pid) rk.2 .GT))
        rk.2).1 ≠ mc.leafOccupancy) :
    (∃ mc', insertEntryAuxM (fuel + 1) mc pid rk = some (mc', true, (0, 0)) ∧
      getLeaf mc' (findPageNumInNode mc.nodeOccupancy (getNode mc pid) rk.2 .GT) =
        insertRIDKeyPairAux
          (getLeaf mc (findPageNumInNode mc.nodeOccupancy (getNode mc pid) rk.2 .GT))
          (leafFindMPos mc.leafOccupancy
            (getLeaf mc (findPageNumInNode mc.nodeOccupancy (getNode mc pid) rk.2 .GT))
            rk.2).1
          rk
          (leafFindMPos mc.leafOccupancy
            (getLeaf mc (findPageNumInNode mc.nodeOccupancy (getNode mc pid) rk.2 .GT))
            rk.2).2 ∧
      ∀ q, q ≠ findPageNumInNode mc.nodeOccupancy (getNode mc pid) rk.2 .GT →
        getPage mc' q = getPage mc q) ∧
    (∃ j, findPageNumInNode mc.nodeOccupancy (getNode mc pid) rk.2 .GT =
        (getNode mc pid).pageNoArray.getD j INVALID_PAGE ∧ j ≤ k ∧
      (∀ t, t < j → (getNode mc pid).keyArray.getD t 0 ≤ rk.2) ∧
      (j < k → rk.2 < (getNode mc pid).keyArray.getD j 0)) := by
  obtain ⟨j, hj1, hj2, hj3, hj4⟩ :=
    findPageNumInNode_GT_char mc.nodeOccupancy (getNode mc pid) rk.2 k hk hvalid hsent
  have ht0 : findPageNumInNode mc.nodeOccupancy (getNode mc pid) rk.2 .GT ≠ 0 := by
    rw [hj1]
    exact hvalid j hj2
  have hstep : insertEntryAuxM (fuel + 1) mc pid rk =
      some (((mc.readPage
            (findPageNumInNode mc.nodeOccupancy (getNode mc pid) rk.2 .GT)).writePage
          (findPageNumInNode mc.nodeOccupancy (getNode mc pid) rk.2 .GT)
          (.leaf (insertRIDKeyPairAux
            (getLeaf mc (findPageNumInNode mc.nodeOccupancy (getNode mc pid) rk.2 .GT))
            (leafFindMPos mc.leafOccupancy
              (getLeaf mc (findPageNumInNode mc.nodeOccupancy (getNode mc pid) rk.2 .GT))
              rk.2).1
            rk
            (leafFindMPos mc.leafOccupancy
              (getLeaf mc (findPageNumInNode mc.nodeOccupancy (getNode mc pid) rk.2 .GT))
              rk.2).2))).unPinPage
        (findPageNumInNode mc.nodeOccupancy (getNode mc pid) rk.2 .GT) true,
        true, (0, 0)) := by
    simp only [insertEntryAuxM]
    rw [if_pos hlevel,
      insertRIDKeyPairM_notfull
        (mc.readPage (findPageNumInNode mc.nodeOccupancy (getNode mc pid) rk.2 .GT))
        (findPageNumInNode mc.nodeOccupancy (getNode mc pid) rk.2 .GT) rk hnotfull]
    rfl
  refine ⟨⟨_, hstep, ?_, ?_⟩, j, hj1, hj2, hj3, hj4⟩
  · rw [getLeaf, getPage_unPinPage,
      getPage_writePage_self
        (mc.readPage (findPageNumInNode mc.nodeOccupancy (getNode mc pid) rk.2 .GT))
        (findPageNumInNode mc.nodeOccupancy (getNode mc pid) rk.2 .GT) _ ht0 htpage]
  · intro q hq
    rw [getPage_unPinPage,
      getPage_writePage_ne
        (mc.readPage (findPageNumInNode mc.nodeOccupancy (getNode mc pid) rk.2 .GT))
        (findPageNumInNode mc.nodeOccupancy (getNode mc pid) rk.2 .GT) q _ ht0 hq,
      getPage_readPage]

/-- Witness for `C6_descent_uses_GT` on the concrete index `m6` (node with
separator 5 over leaves 3 and 4, one valid key, insert key 7). -/
theorem C6_descent_uses_GT_witness :
    ((getNode m6 2).level = 1 ∧ (1 : Nat) ≤ m6.nodeOccupancy ∧
      findPageNumInNode m6.nodeOccupancy (getNode m6 2) 7 .GT - 1 < m6.pages.length) ∧
    (∃ j, findPageNumInNode m6.nodeOccupancy (getNode m6 2) 7 .GT =
        (getNode m6 2).pageNoArray.getD j INVALID_PAGE ∧ j ≤ 1 ∧
      (∀ t, t < j → (getNode m6 2).keyArray.getD t 0 ≤ 7) ∧
      (j < 1 → (7 : Int) < (getNode m6 2).keyArray.getD j 0)) := by
  refine ⟨⟨by decide, by decide, by decide⟩, ?_⟩
  exact (C6_descent_uses_GT 5 m6 2 (⟨7, 1, 0⟩, 7) 1 (by decide) (by decide)
    (by
      intro i hi
      interval_cases i <;> decide)
    (by
      intro i h1 h2
      have h2' : i ≤ 4 := h2
      interval_cases i <;> decide)
    (by decide) (by decide)).2

theorem getMeta_of_pages (mc : Machine) (p : Nat) (meta : IndexMetaInfo)
    (h : getPage mc p = .meta meta) : getMeta mc p = meta := by
  rw [getMeta, h]

/-- C7 (amended): re-opening an index with matching metadata succeeds and
adopts the stored root page number; `BAD_INDEX_INFO` is raised exactly when
the file with the derived name exists and its stored metadata disagrees;
and constructing with an offset whose derived file name does not exist
creates a fresh index successfully instead of raising. -/
theorem C7_ctor_behaviour :
    (∀ (lo no : Nat) (pages : List PageContent) (name : String) (off : Int)
        (t : Datatype) (meta : IndexMetaInfo),
      pages.getD 0 .free = .meta meta →
      meta.attrType = t → meta.attrByteOffset = off → meta.relationName = name →
      (openIndex lo no pages name off t).2 = none ∧
        (openIndex lo no pages name off t).1.rootPageNum = meta.rootPageNo) ∧
    (∀ (fuel lo no : Nat) (fs : List (String × List PageContent)) (rel : String)
        (off : Int) (t : Datatype),
      fs.lookup (rel ++ "." ++ toString off) = none →
      ctorOutcome fuel lo no fs rel off t [] = some (rel ++ "." ++ toString off, none)) ∧
    (∀ (lo no : Nat) (pages : List PageContent) (name : String) (off : Int)
        (t : Datatype) (meta : IndexMetaInfo),
      pages.getD 0 .free = .meta meta →
      (t ≠ meta.attrType ∨ off ≠ meta.attrByteOffset ∨ name ≠ meta.relationName) →
      (openIndex lo no pages name off t).2 = some .BadIndexInfo) := by
  refine ⟨?_, ?_, ?_⟩
  · intro lo no pages name off t meta hmeta ht hoff hname
    have hget : getMeta (({ initMachine lo no with pages := pages }).readPage 1) 1 = meta := by
      refine getMeta_of_pages _ _ _ ?_
      rw [getPage_readPage]
      simpa [getPage] using hmeta
    rw [openIndex]
    rw [hget, if_neg (by
      push_neg
      exact ⟨ht.symm, hoff.symm, hname.symm⟩)]
    exact ⟨rfl, rfl⟩
  · intro fuel lo no fs rel off t h
    rw [ctorOutcome, bTreeCtor]
    rw [h]
    rfl
  · intro lo no pages name off t meta hmeta hmis
    have hget : getMeta (({ initMachine lo no with pages := pages }).readPage 1) 1 = meta := by
      refine getMeta_of_pages _ _ _ ?_
      rw [getPage_readPage]
      simpa [getPage] using hmeta
    rw [openIndex]
    rw [hget, if_pos hmis]

/-- Witness for `C7_ctor_behaviour`: reopening the index built for
`("rel", 0, INTEGER)` with the same arguments succeeds with root page 2;
constructing for `("rel", 1, INTEGER)` over `fs0` creates "rel.1" without
error; reopening "rel.0"'s pages under a wrong relation name raises
`BAD_INDEX_INFO`. -/
theorem C7_ctor_behaviour_witness :
    ((openIndex 2 4 emptyM.pages "rel.0" 0 .INTEGER).2 = none ∧
      (openIndex 2 4 emptyM.pages "rel.0" 0 .INTEGER).1.rootPageNum = 2) ∧
    ctorOutcome 30 2 4 fs0 "rel" 1 .INTEGER [] = some ("rel.1", none) ∧
    (openIndex 2 4 emptyM.pages "other.0" 0 .INTEGER).2 = some .BadIndexInfo := by
  refine ⟨C7_ctor_behaviour.1 2 4 emptyM.pages "rel.0" 0 .INTEGER
      ⟨"rel.0", 0, .INTEGER, 2⟩ (by decide) (by decide) (by decide) (by decide),
    C7_ctor_behaviour.2.1 30 2 4 fs0 "rel" 1 .INTEGER (by decide),
    C7_ctor_behaviour.2.2 2 4 emptyM.pages "other.0" 0 .INTEGER
      ⟨"rel.0", 0, .INTEGER, 2⟩ (by decide) (by decide)⟩

/-- C8 (confirmed): `startScan` raises `BAD_OPCODES` exactly when the
opcodes are invalid, this check precedes the range check, `BAD_SCAN_RANGE`
is raised exactly when the opcodes are valid and `lo > hi`, and on either
rejection the machine (in particular the scan state) is unchanged. -/
theorem C8_startScan_rejections (fuel : Nat) (mc : Machine) (lo hi : Int)
    (lop hop : Operator) :
    (((lop ≠ .GT ∧ lop ≠ .GTE) ∨ (hop ≠ .LT ∧ hop ≠ .LTE)) →
      startScanM fuel mc lo lop hi hop = some (mc, some .BadOpcodes)) ∧
    (¬((lop ≠ .GT ∧ lop ≠ .GTE) ∨ (hop ≠ .LT ∧ hop ≠ .LTE)) → lo > hi →
      startScanM fuel mc lo lop hi hop = some (mc, some .BadScanrange)) ∧
    (∀ mc' e, startScanM fuel mc lo lop hi hop = some (mc', some e) →
      (e = .BadOpcodes ↔ ((lop ≠ .GT ∧ lop ≠ .GTE) ∨ (hop ≠ .LT ∧ hop ≠ .LTE))) ∧
      (e = .BadScanrange ↔
        (¬((lop ≠ .GT ∧ lop ≠ .GTE) ∨ (hop ≠ .LT ∧ hop ≠ .LTE)) ∧ lo > hi)) ∧
      (e = .BadOpcodes ∨ e = .BadScanrange → mc' = mc)) := by
  refine ⟨fun h => by rw [startScanM, if_pos h], fun h1 h2 => by
    rw [startScanM, if_neg h1, if_pos h2], ?_⟩
  intro mc' e hrun
  by_cases h1 : (lop ≠ .GT ∧ lop ≠ .GTE) ∨ (hop ≠ .LT ∧ hop ≠ .LTE)
  · rw [startScanM, if_pos h1] at hrun
    obtain ⟨hm, he⟩ : mc = mc' ∧ some BErr.BadOpcodes = some e := by
      simpa using hrun
    obtain rfl : e = .BadOpcodes := by
      cases he
      rfl
    exact ⟨iff_of_true rfl h1, iff_of_false (by simp) (fun hc => hc.1 h1),
      fun _ => hm.symm⟩
  · by_cases h2 : lo > hi
    · rw [startScanM, if_neg h1, if_pos h2] at hrun
      obtain ⟨hm, he⟩ : mc = mc' ∧ some BErr.BadScanrange = some e := by
        simpa using hrun
      obtain rfl : e = .BadScanrange := by
        cases he
        rfl
      exact ⟨iff_of_false (by simp) h1, iff_of_true rfl ⟨h1, h2⟩, fun _ => hm.symm⟩
    · rw [startScanM, if_neg h1, if_neg h2] at hrun
      have he : e = .NoSuchKeyFound := startScanFind_err fuel _ mc' lo lop e hrun
      subst he
      exact ⟨iff_of_false (by simp) h1, iff_of_false (by simp) (fun hc => hc.2.not_lt (by omega)),
        fun hc => by cases hc <;> simp_all⟩

/-- Witness for `C8_startScan_rejections`: `start_scan(0, LT, 5, LT)` on
`emptyM` is rejected with `BAD_OPCODES` and the state is unchanged, and
`start_scan(10, GTE, 5, LTE)` is rejected with `BAD_SCAN_RANGE`. -/
theorem C8_startScan_rejections_witness :
    startScanM 50 emptyM 0 .LT 5 .LT = some (emptyM, some .BadOpcodes) ∧
    startScanM 50 emptyM 10 .GTE 5 .LTE = some (emptyM, some .BadScanrange) := by
  refine ⟨(C8_startScan_rejections 50 emptyM 0 5 .LT .LT).1 (by
      refine Or.inl ⟨?_, ?_⟩ <;> decide),
    (C8_startScan_rejections 50 emptyM 10 5 .GTE .LTE).2.1 (by
      rintro (⟨ha, hb⟩ | ⟨ha, hb⟩)
      · exact hb rfl
      · exact hb rfl) (by decide)⟩

/-- C9 (amended): pin discipline.  `findLeafPageNum` returns with the pin
multiset unchanged on every successful path, and so does `insertEntry`;
the scan-advance loop `updateScanEntry`, entered holding exactly the pin
of its current leaf, ends holding exactly one pin (the new current leaf)
when it reports "found" and zero pins when the scan is exhausted, and in
the buffer events it emits every pin of a sibling leaf is immediately
preceded by a clean unpin of the previous leaf; `endScan` releases all
scan pins. -/
theorem C9_pin_discipline :
    (∀ fuel mc val op mc2 pid, findLeafPageNumM fuel mc val op = some (mc2, pid) →
      mc2.pinned = mc.pinned) ∧
    (∀ fuel mc key rid mc2, insertEntryM fuel mc key rid = some mc2 →
      mc2.pinned = mc.pinned) ∧
    (∀ fuel mc mc2 f, mc.pinned = [mc.currentPageNum] → mc.currentPageNum ≠ 0 →
      updateScanEntryM fuel mc = some (mc2, f) →
      (f = true → mc2.pinned = [mc2.currentPageNum] ∧ mc2.currentPageNum ≠ 0) ∧
      (f = false → mc2.pinned = []) ∧
      ∃ evs, mc2.events = mc.events ++ evs ∧
        ∀ i b, evs.getD i (Ev.alloc 0) = Ev.pin b →
          1 ≤ i ∧ ∃ a, evs.getD (i - 1) (Ev.alloc 0) = Ev.unpin a false) ∧
    (∀ mc, mc.pinned = (if mc.scanExecuting = true ∧ mc.currentPageNum ≠ 0
        then [mc.currentPageNum] else []) →
      (endScanM mc).1.pinned = []) := by
  refine ⟨fun fuel mc val op mc2 pid h => (findLeafPageNumM_state fuel mc val op mc2 pid h).1,
    fun fuel mc key rid mc2 h => insertEntryM_pinned fuel mc key rid mc2 h,
    ?_, fun mc h => endScanM_pinned mc h⟩
  intro fuel mc mc2 f hpin hcur h
  obtain ⟨-, hft, hff, evs, hevs, hstruct⟩ := updateScanEntryM_state fuel mc mc2 f hpin hcur h
  exact ⟨hft, fun hf => (hff hf).1,
    ⟨evs, hevs, scanPinEvs_pin_preceded mc.currentPageNum evs hstruct⟩⟩

/-- Witness for `C9_pin_discipline`: concrete runs on the single-key index
`tinyM` — a leaf lookup and an insert return with the pin multiset they
started from, and the scan-advance loop from `tinyScanMid` (one pin held)
finds key 10 and still holds exactly one pin. -/
theorem C9_pin_discipline_witness :
    findLeafPageNumM 50 tinyM 10 Operator.GTE = some tinyFound ∧
    tinyFound.1.pinned = tinyM.pinned ∧
    insertEntryM 50 tinyM 11 ⟨11, 1, 0⟩ = some tinyInserted ∧
    tinyInserted.pinned = tinyM.pinned ∧
    updateScanEntryM 50 tinyScanMid = some (tinyAdvanced, true) ∧
    tinyAdvanced.pinned = [tinyAdvanced.currentPageNum] ∧ tinyAdvanced.currentPageNum ≠ 0 ∧
    (endScanM tinyAdvanced).1.pinned = [] := by
  obtain ⟨h1, h2, h3, h4⟩ := C9_pin_discipline
  refine ⟨by decide, h1 50 tinyM 10 Operator.GTE tinyFound.1 tinyFound.2 (by decide),
    by decide, h2 50 tinyM 11 ⟨11, 1, 0⟩ tinyInserted (by decide), by decide, ?_, ?_,
    h4 tinyAdvanced (by decide)⟩
  · exact ((h3 50 tinyScanMid tinyAdvanced true (by decide) (by decide) (by decide)).1 rfl).1
  · exact ((h3 50 tinyScanMid tinyAdvanced true (by decide) (by decide) (by decide)).1 rfl).2

/-- C10: if `startScan` throws `NoSuchKeyFound` from a clean pre-state (no
pin held beyond an active scan's current leaf, and `nextEntry = -1` when
idle), the index is left with `scanExecuting = true`, `nextEntry = -1`,
no current page and no page pinned; a subsequent `scanNext` throws
`IndexScanCompleted` (not `ScanNotInitialized`), and a subsequent
`endScan` succeeds without unpinning anything and returns the index to
idle. -/
theorem C10_noSuchKey_state (fuel fuel2 : Nat) (mc mc9 : Machine) (lo hi : Int)
    (lop hop : Operator)
    (hpin : mc.pinned = if mc.scanExecuting = true ∧ mc.currentPageNum ≠ 0
      then [mc.currentPageNum] else [])
    (hidle : mc.scanExecuting = false → mc.nextEntry = -1)
    (hrun : startScanM fuel mc lo lop hi hop = some (mc9, some .NoSuchKeyFound)) :
    mc9.scanExecuting = true ∧ mc9.nextEntry = -1 ∧ mc9.currentPageNum = 0 ∧
    mc9.pinned = [] ∧
    scanNextM fuel2 mc9 = some (mc9, .error .IndexScanCompleted) ∧
    (endScanM mc9).2 = none ∧ (endScanM mc9).1.scanExecuting = false ∧
    (endScanM mc9).1.pinned = [] := by
  rw [startScanM] at hrun
  by_cases h1 : (lop ≠ .GT ∧ lop ≠ .GTE) ∨ (hop ≠ .LT ∧ hop ≠ .LTE)
  · rw [if_pos h1] at hrun
    simp at hrun
  · rw [if_neg h1] at hrun
    by_cases h2 : lo > hi
    · rw [if_pos h2] at hrun
      simp at hrun
    · rw [if_neg h2] at hrun
      have hp : (if mc.scanExecuting = true then (endScanM mc).1 else mc).pinned = [] := by
        by_cases hs : mc.scanExecuting = true
        · rw [if_pos hs]
          exact endScanM_pinned mc hpin
        · rw [if_neg hs]
          rw [hpin, if_neg (fun hand => hs hand.1)]
      have hn : (if mc.scanExecuting = true then (endScanM mc).1 else mc).nextEntry = -1 := by
        by_cases hs : mc.scanExecuting = true
        · rw [if_pos hs]
          rw [endScanM, if_neg (by simp [hs])]
        · rw [if_neg hs]
          exact hidle (by simpa using hs)
      have hfind := startScanFind_noSuchKey fuel
        { (if mc.scanExecuting = true then (endScanM mc).1 else mc) with
            scanExecuting := true
            lowValInt := lo
            lowOp := lop
            highValInt := hi
            highOp := hop } mc9 lo lop hp hn hrun
      have hs9 : mc9.scanExecuting = true := hfind.1
      refine ⟨hs9, hfind.2.1, hfind.2.2.1, hfind.2.2.2, ?_, ?_, ?_, ?_⟩
      · rw [scanNextM, if_neg (by simp [hs9]), if_pos hfind.2.1]
      · rw [endScanM, if_neg (by simp [hs9])]
      · rw [endScanM, if_neg (by simp [hs9])]
      · exact endScanM_pinned mc9 (by
          rw [hfind.2.2.2, if_neg (fun hand => hand.2 hfind.2.2.1)])

/-- Witness for `C10_noSuchKey_state`: on the empty index `emptyM` the
scan `(5, GTE, 7, LTE)` throws `NoSuchKeyFound`, leaving `emptyScanned`
active, unpositioned and pin-free; `scanNext` then reports
`IndexScanCompleted` and `endScan` returns to idle. -/
theorem C10_noSuchKey_state_witness :
    startScanM 50 emptyM 5 .GTE 7 .LTE = some (emptyScanned, some .NoSuchKeyFound) ∧
    emptyScanned.scanExecuting = true ∧ emptyScanned.nextEntry = -1 ∧
    emptyScanned.currentPageNum = 0 ∧ emptyScanned.pinned = [] ∧
    scanNextM 50 emptyScanned = some (emptyScanned, .error .IndexScanCompleted) ∧
    (endScanM emptyScanned).2 = none ∧ (endScanM emptyScanned).1.scanExecuting = false ∧
    (endScanM emptyScanned).1.pinned = [] := by
  have h := C10_noSuchKey_state 50 50 emptyM emptyScanned 5 7 .GTE .LTE (by decide)
    (by decide) (by decide)
  exact ⟨by decide, h.1, h.2.1, h.2.2.1, h.2.2.2.1, h.2.2.2.2.1, h.2.2.2.2.2.1,
    h.2.2.2.2.2.2.1, h.2.2.2.2.2.2.2⟩

end BadgerBTree
